import Mathlib

/-!
Shallow embedding of the document image bookkeeping subsystem of the
obsidian-image-manager plugin: the magic-variable template processor
(`src/manager/magic_variable.ts`), the image record
(`src/manager/image_info.ts`), the document image manager
(`src/manager/document_manager.ts`) and the manager factory
(`ImageManagerFactory` in `src/const/settings.ts`).

External collaborators are modelled by an explicit environment `Env`:

* the vault filesystem is an explicit `Fs` value; adapter calls that can throw
  do so exactly on the paths listed in `Env.failPaths`;
* every `Date.now()` and `getContext()` call consumes one tick of a logical
  clock and reads the corresponding value of an environment stream;
* `JSON.stringify` / `JSON.parse` are mutually inverse on the sidecar object
  shape `\x7b mdPath, images \x7d`, so a sidecar file's content is modelled by
  the structured value itself (`FileContent.jsonSidecar`) rather than by its
  serialized text;
* calls to the upload collaborator are recorded in the ghost log
  `World.uploads`, so theorems can talk about exactly which records were
  handed to the uploader.
-/

namespace Path

/-- JavaScript `String.prototype.split` with a single-character separator
(note `"".split(x) = [""]`), on character lists. -/
def splitOnChar (sep : Char) : List Char → List (List Char)
  | [] => [[]]
  | c :: rest =>
    if c = sep then [] :: splitOnChar sep rest
    else
      match splitOnChar sep rest with
      | s :: ss => (c :: s) :: ss
      | [] => [[c]]

theorem splitOnChar_ne_nil (sep : Char) (l : List Char) : splitOnChar sep l ≠ [] := by
  cases l with
  | nil => simp [splitOnChar]
  | cons c rest =>
    simp only [splitOnChar]
    split
    · simp
    · split
      · simp
      · simp

/-- Join segment lists with a separator character (inverse of `splitOnChar`). -/
def joinSegs (sep : Char) : List (List Char) → List Char
  | [] => []
  | [s] => s
  | s :: rest => s ++ sep :: joinSegs sep rest

/-- node `path.basename(p)`: the part after the last slash.  Trailing-slash
corner cases of node are not exercised by the plugin's normalized vault paths
and are not modelled. -/
def basename (p : String) : String :=
  String.mk ((splitOnChar '/' p.data).getLastD [])

/-- node `path.basename(p, ext)`: the basename with `ext` stripped when it is
a proper suffix of it. -/
def basenameExt (p ext : String) : String :=
  let b := (basename p).data
  let e := ext.data
  if e.length < b.length ∧ e.isSuffixOf b then String.mk (b.take (b.length - e.length))
  else String.mk b

/-- node `path.dirname(p)`: everything before the last slash, `"."` when there
is no slash.  (Root-path corner cases are not exercised by the plugin.) -/
def dirname (p : String) : String :=
  let segs := splitOnChar '/' p.data
  if segs.length ≤ 1 then "."
  else String.mk (joinSegs '/' segs.dropLast)

/-- node `path.join(a, b)` for the shapes the plugin uses: concatenation with
a single separator.  Duplicate slashes (e.g. when `b` carries a leading slash)
are cleaned up by `normalizePath` at every call site that needs it. -/
def join (a b : String) : String :=
  if a = "" then b else if b = "" then a else a ++ "/" ++ b

/-- Obsidian `normalizePath`: split on slashes, drop empty segments, rejoin.
(Backslash conversion is not modelled; vault paths use forward slashes.) -/
def normalizePath (p : String) : String :=
  String.mk (joinSegs '/' ((splitOnChar '/' p.data).filter (fun s => !s.isEmpty)))

/-- Helper for JavaScript `String.prototype.replace` with a plain nonempty
string pattern: replace the first occurrence only. -/
def replaceFirstCL (pat repl : List Char) : List Char → List Char
  | [] => []
  | c :: rest =>
    if pat.isPrefixOf (c :: rest) then repl ++ (c :: rest).drop pat.length
    else c :: replaceFirstCL pat repl rest

/-- JavaScript `String.prototype.replace` with a plain-string pattern:
replace the first occurrence only; with an empty pattern the replacement is
inserted at the front; a string without the pattern is returned unchanged. -/
def replaceFirst (s pat repl : String) : String :=
  if pat = "" then repl ++ s
  else String.mk (replaceFirstCL pat.data repl.data s.data)

/-- Index of the last `'.'` in a character list (`String.prototype.lastIndexOf`,
`none` for `-1`). -/
def lastDotIdx (l : List Char) : Option Nat :=
  ((l.enum.filter (fun p => p.2 == '.')).getLast?).map (fun p => p.1)

/-- The pair `(s.substring(0, i), s.substring(i))` for `i = s.lastIndexOf('.')`,
as used by `copyImageToFolder` and `getMarkdownReference`: when the name has no
dot, `lastIndexOf` yields `-1` and JavaScript's `substring` clamps it, giving
`("", s)`. -/
def lastDotSplit (s : String) : String × String :=
  match lastDotIdx s.data with
  | none => ("", s)
  | some i => (String.mk (s.data.take i), String.mk (s.data.drop i))

/-- One decimal digit character. -/
def digitChar : Nat → Char
  | 0 => '0' | 1 => '1' | 2 => '2' | 3 => '3' | 4 => '4'
  | 5 => '5' | 6 => '6' | 7 => '7' | 8 => '8' | _ => '9'

/-- Recursion worker for `natToChars`, structural on a digit-count bound. -/
def natToCharsAux : Nat → Nat → List Char
  | 0, _ => []
  | fuel + 1, n =>
    if n < 10 then [digitChar n]
    else natToCharsAux fuel (n / 10) ++ [digitChar (n % 10)]

/-- Decimal rendering of a natural number, as JavaScript template
interpolation renders a `Date.now()` timestamp (`n + 1` always bounds the
digit count). -/
def natToChars (n : Nat) : List Char := natToCharsAux (n + 1) n

theorem digitChar_ne_slash (n : Nat) : digitChar n ≠ '/' := by
  unfold digitChar
  split <;> decide

theorem natToCharsAux_ne_slash (fuel : Nat) : ∀ n, ∀ c ∈ natToCharsAux fuel n, c ≠ '/' := by
  induction fuel with
  | zero => intro n c hc; simp [natToCharsAux] at hc
  | succ fuel ih =>
    intro n c hc
    rw [natToCharsAux] at hc
    split at hc
    · simp at hc
      subst hc
      exact digitChar_ne_slash n
    · rcases List.mem_append.mp hc with h | h
      · exact ih (n / 10) c h
      · simp at h
        subst h
        exact digitChar_ne_slash (n % 10)

theorem natToChars_ne_slash (n : Nat) : ∀ c ∈ natToChars n, c ≠ '/' :=
  natToCharsAux_ne_slash (n + 1) n

end Path

/-! ### The magic-variable template processor (`src/manager/magic_variable.ts`) -/

/-- JavaScript regex `\w`: ASCII letters, digits and underscore. -/
def wordChar (c : Char) : Bool := c.isAlpha || c.isDigit || c == '_'

/-- Does the character list start with two closing braces (`\x7d\x7d`). -/
def twoRB : List Char → Bool
  | c1 :: c2 :: _ => c1 == '\x7d' && c2 == '\x7d'
  | _ => false

theorem dropWhile_len_le (p : Char → Bool) (l : List Char) :
    (l.dropWhile p).length ≤ l.length := by
  induction l with
  | nil => simp
  | cons c rest ih =>
    simp only [List.dropWhile]
    split
    · simp
      omega
    · simp

theorem dropWhile_drop_len (p : Char → Bool) (l : List Char) (k : Nat) :
    ((l.dropWhile p).drop k).length ≤ l.length := by
  have h1 : (l.dropWhile p).length ≤ l.length := dropWhile_len_le p l
  have h2 : ((l.dropWhile p).drop k).length ≤ (l.dropWhile p).length := by
    rw [List.length_drop]
    omega
  omega

/-- One left-to-right pass of the global regex replace
`template.replace(/\x7b\x7b(\w+)\x7d\x7d/g, ...)` in
`MagicVariableProcessor.process`: at each position, a placeholder is a `\x7b\x7b`,
a nonempty run of word characters, then `\x7d\x7d`; a defined context variable is
replaced by its value, an undefined one is kept as the literal matched text
(scanning resumes after it), and a position with no match emits one character. -/
def scanTemplate (ctx : List (String × String)) : List Char → List Char
  | [] => []
  | [c] => [c]
  | c :: c2 :: rest2 =>
    if c = '\x7b' ∧ c2 = '\x7b' then
      let run := rest2.takeWhile wordChar
      if run.isEmpty then c :: scanTemplate ctx (c2 :: rest2)
      else if twoRB (rest2.dropWhile wordChar) then
        let tail := (rest2.dropWhile wordChar).drop 2
        match ctx.lookup (String.mk run) with
        | some v => v.data ++ scanTemplate ctx tail
        | none => c :: c2 :: (run ++ '\x7d' :: '\x7d' :: scanTemplate ctx tail)
      else c :: scanTemplate ctx (c2 :: rest2)
    else c :: scanTemplate ctx (c2 :: rest2)
termination_by l => l.length
decreasing_by
  all_goals simp only [List.length_cons]
  all_goals
    first
    | omega
    | exact lt_of_le_of_lt (dropWhile_drop_len wordChar _ 2) (by omega)

/-- Is there a placeholder match starting at the head of the list. -/
def phMatchAt (l : List Char) : Bool :=
  match l with
  | c1 :: c2 :: rest =>
    c1 == '\x7b' && c2 == '\x7b' && !(rest.takeWhile wordChar).isEmpty &&
      twoRB (rest.dropWhile wordChar)
  | _ => false

/-- Is there a placeholder match starting at any position of the list. -/
def containsPlaceholder : List Char → Bool
  | [] => false
  | c :: rest => phMatchAt (c :: rest) || containsPlaceholder rest

namespace MagicVariableProcessor

/-- `MagicVariableProcessor.process(template, context)`
(`src/manager/magic_variable.ts`, lines 110-131).  A falsy (empty) template
yields `""`; otherwise every `\x7b\x7bname\x7d\x7d` whose name is a defined context key is
replaced by the context value and every other occurrence is kept literally.
The context is modelled as an association list; a key is "defined" exactly
when it is present (TypeScript `variable in context && context[variable] !==
undefined`). -/
def process (template : String) (context : List (String × String)) : String :=
  if template = "" then ""
  else String.mk (scanTemplate context template.data)

end MagicVariableProcessor

/-! ### String-keyed association lists with JavaScript `Map` semantics
(`set` updates in place, a fresh key is appended; iteration order is insertion
order). -/

namespace Assoc

def set (m : List (String × α)) (k : String) (v : α) : List (String × α) :=
  if (m.lookup k).isSome then m.map (fun kv => if kv.1 = k then (k, v) else kv)
  else m ++ [(k, v)]

def erase (m : List (String × α)) (k : String) : List (String × α) :=
  m.filter (fun kv => kv.1 != k)

def keys (m : List (String × α)) : List String := m.map (fun kv => kv.1)

end Assoc

/-! ### The data model -/

/-- `IImageInfo` (`src/manager/image_info.ts`, lines 4-58).  Optional fields
are absent (`none`) unless written. -/
structure ImageInfo where
  localPath : String
  remotePath : String
  isUploaded : Bool
  width : Option Nat := none
  height : Option Nat := none
  align : Option String := none
  originalName : Option String := none
  size : Option Nat := none
  createTime : Option Nat := none
  modifyTime : Option Nat := none
  deriving DecidableEq

/-- `createImageInfo` (`src/manager/image_info.ts`, lines 67-79); the two
`Date.now()` draws (`createTime` then `modifyTime`) are passed explicitly. -/
def createImageInfo (localPath : String) (remotePath : String) (isUploaded : Bool)
    (createTime modifyTime : Nat) : ImageInfo :=
  { localPath := localPath, remotePath := remotePath, isUploaded := isUploaded,
    createTime := some createTime, modifyTime := some modifyTime }

/-- The content of a vault file.  Sidecar files written by `saveToJson` hold
the serialized object `\x7b mdPath, images \x7d`; since `JSON.parse` inverts
`JSON.stringify` on this shape, the content is modelled structurally.  Every
other file is opaque bytes. -/
inductive FileContent where
  | binary (bytes : List Nat)
  | jsonSidecar (mdPath : String) (images : List (String × ImageInfo))
  deriving DecidableEq

/-- The size reported by `adapter.stat` (the serialized length of a sidecar is
not relevant to any claim and is modelled as 0). -/
def FileContent.byteSize : FileContent → Nat
  | .binary bytes => bytes.length
  | .jsonSidecar _ _ => 0

/-- The vault filesystem: files with content, and the set of directories. -/
structure Fs where
  files : List (String × FileContent)
  dirs : List String
  deriving DecidableEq

/-- `adapter.exists`: a path exists when a file or a directory is there. -/
def Fs.existsPath (fs : Fs) (p : String) : Bool :=
  (fs.files.lookup p).isSome || fs.dirs.contains p

/-- The external world: settings-independent collaborator behaviour.
`contextAt clock path` is the context built by
`MagicVariableProcessor.getContext(path)` at a given logical time (its
`date` / `time` / `random` entries change between calls, which is why it is a
stream); `nowAt clock` is the value of `Date.now()`; `uploadResult p` is the
string returned by the upload command for `p` (`none` = the command threw);
`fetchResult url` is the body fetched for `url` (`none` = fetch threw);
adapter calls on a path in `failPaths` throw. -/
structure Env where
  contextAt : Nat → String → List (String × String)
  nowAt : Nat → Nat
  uploadResult : String → Option String
  fetchResult : String → Option (List Nat)
  failPaths : List String

/-- Mutable world state threaded through every operation: the filesystem, the
logical clock, and the ghost log of paths handed to the upload collaborator. -/
structure World where
  fs : Fs
  clock : Nat
  uploads : List String
  deriving DecidableEq

/-- One `Date.now()` draw. -/
def drawNow (env : Env) (w : World) : Nat × World :=
  (env.nowAt w.clock, { w with clock := w.clock + 1 })

/-- One `MagicVariableProcessor.getContext(filePath)` call
(`src/manager/magic_variable.ts`, lines 63-102): the built context is a draw
from the environment stream. -/
def getContext (env : Env) (filePath : String) (w : World) :
    List (String × String) × World :=
  (env.contextAt w.clock filePath, { w with clock := w.clock + 1 })

/-! ### The vault adapter (collaborator; throwing calls return `none`) -/

namespace Vault

/-- `adapter.read` (then `JSON.parse` happens at the caller). -/
def read (env : Env) (fs : Fs) (p : String) : Option FileContent :=
  if env.failPaths.contains p then none
  else fs.files.lookup p

/-- `adapter.readBinary`. -/
def readBinary (env : Env) (fs : Fs) (p : String) : Option FileContent :=
  if env.failPaths.contains p then none
  else fs.files.lookup p

/-- `adapter.write`. -/
def write (env : Env) (fs : Fs) (p : String) (c : FileContent) : Option Fs :=
  if env.failPaths.contains p then none
  else some { fs with files := Assoc.set fs.files p c }

/-- `adapter.writeBinary`. -/
def writeBinary (env : Env) (fs : Fs) (p : String) (c : FileContent) : Option Fs :=
  if env.failPaths.contains p then none
  else some { fs with files := Assoc.set fs.files p c }

/-- `adapter.mkdir`. -/
def mkdir (env : Env) (fs : Fs) (p : String) : Option Fs :=
  if env.failPaths.contains p then none
  else some { fs with dirs := p :: fs.dirs }

/-- `adapter.remove`: deletes a file. -/
def remove (env : Env) (fs : Fs) (p : String) : Option Fs :=
  if env.failPaths.contains p then none
  else some { fs with files := fs.files.filter (fun kv => kv.1 != p) }

/-- `adapter.rmdir(p, true)`: recursively deletes the directory and
everything under it. -/
def rmdirRecursive (env : Env) (fs : Fs) (p : String) : Option Fs :=
  if env.failPaths.contains p then none
  else some
    { files := fs.files.filter (fun kv => !((p ++ "/").data.isPrefixOf kv.1.data)),
      dirs := fs.dirs.filter (fun d => !(d == p || (p ++ "/").data.isPrefixOf d.data)) }

/-- `adapter.list(p).files`: the full paths of the direct child files. -/
def list (env : Env) (fs : Fs) (p : String) : Option (List String) :=
  if env.failPaths.contains p then none
  else some ((fs.files.map (fun kv => kv.1)).filter
    (fun f => (p ++ "/").data.isPrefixOf f.data &&
      !((f.data.drop (p.data.length + 1)).contains '/')))

/-- `adapter.stat(p)` (`none` = threw; `some none` = no such file). -/
def stat (env : Env) (fs : Fs) (p : String) : Option (Option Nat) :=
  if env.failPaths.contains p then none
  else some ((fs.files.lookup p).map FileContent.byteSize)

end Vault

/-! ### The document image manager (`src/manager/document_manager.ts`) -/

/-- `ISettings` fields consumed by the manager (`src/interface/settings.ts`). -/
structure Settings where
  isAutoUpload : Bool
  isDeleteTemp : Bool
  tempFolderPath : String
  tempFileFormat : String
  deriving DecidableEq

/-- The manager's own mutable fields (`DocumentImageManager`, lines 90-92). -/
structure ManagerState where
  mdPath : String
  imageFolderPath : String
  images : List (String × ImageInfo)
  deriving DecidableEq

namespace DocumentImageManager

/-- `getImageFolderPath` (lines 124-140): `normalizePath(join(dirname(mdPath),
process(settings.tempFolderPath, getContext(mdPath))))`. -/
def getImageFolderPath (env : Env) (settings : Settings) (mdPath : String) (w : World) :
    String × World :=
  let mdDir := Path.dirname mdPath
  let (context, w1) := getContext env mdPath w
  let relativeFolderPath := MagicVariableProcessor.process settings.tempFolderPath context
  (Path.normalizePath (Path.join mdDir relativeFolderPath), w1)

/-- The constructor (lines 100-108): empty map, folder path resolved once. -/
def mkManager (env : Env) (settings : Settings) (mdPath : String) (w : World) :
    ManagerState × World :=
  let (folder, w1) := getImageFolderPath env settings mdPath w
  ({ mdPath := mdPath, imageFolderPath := folder, images := [] }, w1)

/-- `getJsonPath` (lines 115-118): the sidecar sits inside the image folder
and is named after the document. -/
def getJsonPath (s : ManagerState) (imageFolderPath : String) : String :=
  Path.join imageFolderPath (Path.basenameExt s.mdPath ".md" ++ ".json")

/-- `loadFromJson` (lines 146-176): missing sidecar leaves the map untouched
and returns false; malformed content (a non-sidecar file) is a caught parse
error, map untouched, false; otherwise the map is replaced entirely by the
parsed entries. -/
def loadFromJson (env : Env) (s : ManagerState) (w : World) : Bool × ManagerState × World :=
  let jsonPath := getJsonPath s s.imageFolderPath
  if Fs.existsPath w.fs jsonPath then
    match Vault.read env w.fs jsonPath with
    | none => (false, s, w)
    | some (.binary _) => (false, s, w)
    | some (.jsonSidecar _ imgs) =>
      let images := imgs.foldl (fun acc kv => Assoc.set acc kv.1 kv.2) []
      (true, { s with images := images }, w)
  else (false, s, w)

/-- `saveToJson` (lines 182-222): with an empty map the sidecar and the image
folder are deleted (when present) and the call succeeds; otherwise the folder
is created when absent and the sidecar is (re)written.  Any adapter throw is
caught and reported as false. -/
def saveToJson (env : Env) (s : ManagerState) (w : World) : Bool × World :=
  if s.images.length = 0 then
    let jsonPath := getJsonPath s s.imageFolderPath
    match (if Fs.existsPath w.fs jsonPath then Vault.remove env w.fs jsonPath else some w.fs) with
    | none => (false, w)
    | some fs1 =>
      match (if Fs.existsPath fs1 s.imageFolderPath then
               Vault.rmdirRecursive env fs1 s.imageFolderPath else some fs1) with
      | none => (false, { w with fs := fs1 })
      | some fs2 => (true, { w with fs := fs2 })
  else
    match (if !(Fs.existsPath w.fs s.imageFolderPath) then
             Vault.mkdir env w.fs s.imageFolderPath else some w.fs) with
    | none => (false, w)
    | some fs1 =>
      let jsonPath := getJsonPath s s.imageFolderPath
      match Vault.write env fs1 jsonPath (.jsonSidecar s.mdPath s.images) with
      | none => (false, { w with fs := fs1 })
      | some fs2 => (true, { w with fs := fs2 })

/-- `copyImageToFolder` (lines 251-302): the original filename is kept; when
the destination already exists, a `Date.now()` timestamp is inserted before
the extension (`substring` on `lastIndexOf('.')`) and the file is written at
the timestamped path without a further existence check.  A throw is re-raised
(`none`). -/
def copyImageToFolder (env : Env) (s : ManagerState) (sourcePath : String) (w : World) :
    Option String × World :=
  let originalName := Path.basename sourcePath
  let newFileName := originalName
  match (if !(Fs.existsPath w.fs s.imageFolderPath) then
           Vault.mkdir env w.fs s.imageFolderPath else some w.fs) with
  | none => (none, w)
  | some fs1 =>
    let targetPath := Path.normalizePath (Path.join s.imageFolderPath newFileName)
    if Fs.existsPath fs1 targetPath then
      let (timestamp, w1) := drawNow env { w with fs := fs1 }
      let nameNoExt := (Path.lastDotSplit newFileName).1
      let ext := (Path.lastDotSplit newFileName).2
      let newNameWithTimestamp := nameNoExt ++ "_" ++ String.mk (Path.natToChars timestamp) ++ ext
      let targetPathTs := Path.normalizePath (Path.join s.imageFolderPath newNameWithTimestamp)
      match Vault.readBinary env w1.fs sourcePath with
      | none => (none, w1)
      | some content =>
        match Vault.writeBinary env w1.fs targetPathTs content with
        | none => (none, w1)
        | some fs2 => (some targetPathTs, { w1 with fs := fs2 })
    else
      match Vault.readBinary env fs1 sourcePath with
      | none => (none, { w with fs := fs1 })
      | some content =>
        match Vault.writeBinary env fs1 targetPath content with
        | none => (none, { w with fs := fs1 })
        | some fs2 => (some targetPath, { w with fs := fs2 })

/-- `getRelativePath` (lines 309-323): remove the first occurrence of the
normalized document directory from the normalized path, then strip one
leading slash. -/
def getRelativePath (s : ManagerState) (absolutePath : String) : String :=
  let mdDir := Path.dirname s.mdPath
  let relativePath := Path.replaceFirst (Path.normalizePath absolutePath)
    (Path.normalizePath mdDir) ""
  match relativePath.data with
  | '/' :: rest => String.mk rest
  | _ => relativePath

/-- `uploadImage` (lines 428-495): unknown or already-uploaded records do not
reach the uploader; otherwise the collaborator is called (logged), a throw is
caught as false, and on success the first comma-separated URL is recorded,
the record is marked uploaded, the map is persisted, and with `isDeleteTemp`
the local file is removed (a throw there is caught as false, after the record
was already updated). -/
def uploadImage (env : Env) (settings : Settings) (s : ManagerState) (localPath : String)
    (w : World) : Bool × ManagerState × World :=
  match s.images.lookup localPath with
  | none => (false, s, w)
  | some imageInfo =>
    if imageInfo.isUploaded then (true, s, w)
    else
      let w1 := { w with uploads := w.uploads ++ [localPath] }
      match env.uploadResult localPath with
      | none => (false, s, w1)
      | some result =>
        let urls := Path.splitOnChar ',' result.data
        if urls.length > 0 then
          let (tNow, w2) := drawNow env w1
          let newInfo := { imageInfo with
            remotePath := String.mk (urls.headD []),
            isUploaded := true,
            modifyTime := some tNow }
          let s1 := { s with images := Assoc.set s.images localPath newInfo }
          let (_, w3) := saveToJson env s1 w2
          if settings.isDeleteTemp && Fs.existsPath w3.fs localPath then
            match Vault.remove env w3.fs localPath with
            | none => (false, s1, w3)
            | some fs2 => (true, s1, { w3 with fs := fs2 })
          else (true, s1, w3)
        else (false, s, w1)

/-- `addImage` (lines 330-381): copy, build the record (two `Date.now()`
draws), best-effort `stat` for the size, insert, persist; with auto-upload the
new record is uploaded and on success the recorded remote URL is returned,
otherwise the document-relative path is returned.  A copy failure is
re-raised (`none`). -/
def addImage (env : Env) (settings : Settings) (s : ManagerState) (sourcePath : String)
    (w : World) : Option String × ManagerState × World :=
  match copyImageToFolder env s sourcePath w with
  | (none, w1) => (none, s, w1)
  | (some targetPath, w1) =>
    let (t1, w2) := drawNow env w1
    let (t2, w3) := drawNow env w2
    let info0 := createImageInfo targetPath "" false t1 t2
    let info1 := { info0 with originalName := some (Path.basename sourcePath) }
    let info2 :=
      match Vault.stat env w3.fs targetPath with
      | some (some sz) => { info1 with size := some sz }
      | _ => info1
    let s1 := { s with images := Assoc.set s.images targetPath info2 }
    let (_, w4) := saveToJson env s1 w3
    if settings.isAutoUpload then
      match uploadImage env settings s1 targetPath w4 with
      | (true, s2, w5) =>
        let remote := match s2.images.lookup targetPath with
                      | some i => i.remotePath
                      | none => ""
        (some remote, s2, w5)
      | (false, s2, w5) => (some (getRelativePath s2 targetPath), s2, w5)
    else (some (getRelativePath s1 targetPath), s1, w4)

/-- `removeImage` (lines 388-421): false for an unknown key; otherwise the
on-disk file is deleted when present (a throw is caught and reported as
false, leaving the map as it was), the entry is removed and the map is
persisted (cascading deletion happens inside `saveToJson`). -/
def removeImage (env : Env) (s : ManagerState) (localPath : String) (w : World) :
    Bool × ManagerState × World :=
  match s.images.lookup localPath with
  | none => (false, s, w)
  | some _ =>
    match (if Fs.existsPath w.fs localPath then Vault.remove env w.fs localPath
           else some w.fs) with
    | none => (false, s, w)
    | some fs1 =>
      let s1 := { s with images := Assoc.erase s.images localPath }
      let (_, w2) := saveToJson env s1 { w with fs := fs1 }
      (true, s1, w2)

/-- The loop of `uploadAllImages` (lines 501-513).  The map's key set is fixed
during the loop (only record values are updated), so iterating the initial
key list while reading the current value is the live `entries()` iteration of
the source. -/
def uploadAllGo (env : Env) (settings : Settings) :
    List String → Bool → ManagerState → World → Bool × ManagerState × World
  | [], acc, s, w => (acc, s, w)
  | k :: ks, acc, s, w =>
    match s.images.lookup k with
    | some info =>
      if !info.isUploaded then
        match uploadImage env settings s k w with
        | (success, s1, w1) => uploadAllGo env settings ks (acc && success) s1 w1
      else uploadAllGo env settings ks acc s w
    | none => uploadAllGo env settings ks acc s w

/-- `uploadAllImages` (lines 501-513): attempt every not-yet-uploaded record
independently; the result is the conjunction of the per-record outcomes. -/
def uploadAllImages (env : Env) (settings : Settings) (s : ManagerState) (w : World) :
    Bool × ManagerState × World :=
  uploadAllGo env settings (Assoc.keys s.images) true s w

/-- `downloadImage` (lines 520-551): the filename comes from the URL without
its query, the folder is re-resolved (a fresh context draw), the body is
fetched and written; a throw is re-raised (`none`). -/
def downloadImage (env : Env) (settings : Settings) (s : ManagerState) (url : String)
    (w : World) : Option String × World :=
  let fileName := Path.basename (String.mk ((Path.splitOnChar '?' url.data).headD []))
  let (imageFolderPath, w1) := getImageFolderPath env settings s.mdPath w
  match (if !(Fs.existsPath w1.fs imageFolderPath) then
           Vault.mkdir env w1.fs imageFolderPath else some w1.fs) with
  | none => (none, w1)
  | some fs1 =>
    let targetPath := Path.normalizePath (Path.join imageFolderPath fileName)
    match env.fetchResult url with
    | none => (none, { w1 with fs := fs1 })
    | some bytes =>
      match Vault.writeBinary env fs1 targetPath (.binary bytes) with
      | none => (none, { w1 with fs := fs1 })
      | some fs2 => (some targetPath, { w1 with fs := fs2 })

/-- The loop of `downloadAllImages` (lines 557-585); same live-iteration model
as `uploadAllGo`. -/
def downloadAllGo (env : Env) (settings : Settings) :
    List String → Bool → ManagerState → World → Bool × ManagerState × World
  | [], acc, s, w => (acc, s, w)
  | k :: ks, acc, s, w =>
    match s.images.lookup k with
    | some info =>
      if info.isUploaded && (info.localPath == "" || !(Fs.existsPath w.fs info.localPath)) then
        match downloadImage env settings s info.remotePath w with
        | (some localPath, w1) =>
          let (tNow, w2) := drawNow env w1
          let newInfo := { info with localPath := localPath, modifyTime := some tNow }
          downloadAllGo env settings ks acc
            { s with images := Assoc.set s.images k newInfo } w2
        | (none, w1) => downloadAllGo env settings ks false s w1
      else downloadAllGo env settings ks acc s w
    | none => downloadAllGo env settings ks acc s w

/-- `downloadAllImages` (lines 557-585): fetch every uploaded record whose
local file is empty or missing; failures are isolated; one persist at the
end. -/
def downloadAllImages (env : Env) (settings : Settings) (s : ManagerState) (w : World) :
    Bool × ManagerState × World :=
  match downloadAllGo env settings (Assoc.keys s.images) true s w with
  | (allSuccess, s1, w1) =>
    let (_, w2) := saveToJson env s1 w1
    (allSuccess, s1, w2)

/-- The move loop of `renameImageFolder` (lines 637-664): each direct child is
copied, the original is removed, and a record keyed by the old path is
re-keyed (delete + append, preserving all other fields).  A throw stops the
loop with the partial state. -/
def moveFilesGo (env : Env) (oldFolder newFolder : String) :
    List String → ManagerState → Fs → Bool × ManagerState × Fs
  | [], s, fs => (true, s, fs)
  | file :: rest, s, fs =>
    match Vault.readBinary env fs file with
    | none => (false, s, fs)
    | some content =>
      let relativePath := String.mk (file.data.drop oldFolder.data.length)
      let targetPath := Path.normalizePath (Path.join newFolder relativePath)
      match Vault.writeBinary env fs targetPath content with
      | none => (false, s, fs)
      | some fs1 =>
        match Vault.remove env fs1 file with
        | none => (false, s, fs1)
        | some fs2 =>
          let s1 :=
            match s.images.lookup file with
            | some info =>
              let newInfo := { info with localPath := targetPath }
              { s with images := Assoc.set (Assoc.erase s.images file) targetPath newInfo }
            | none => s
          moveFilesGo env oldFolder newFolder rest s1 fs2

/-- `renameImageFolder` (lines 592-683).  Empty map: immediate success with
nothing updated.  Otherwise the paths are updated first; a missing old folder
is recoverable success; the `mkdir` and the same-folder sidecar move sit
outside the `try` block, so a throw there propagates (`none`) without any
rollback; inside the `try`, any throw rolls `mdPath` / `imageFolderPath` back
(already-moved files and re-keyed records are not rolled back) and returns
false. -/
def renameImageFolder (env : Env) (settings : Settings) (s : ManagerState)
    (newMdPath : String) (w : World) : Option Bool × ManagerState × World :=
  if s.images.length = 0 then (some true, s, w)
  else
    let oldMdPath := s.mdPath
    let oldImageFolder := s.imageFolderPath
    let oldJsonPath := getJsonPath s oldImageFolder
    let (newFolder, w1) := getImageFolderPath env settings newMdPath w
    let s1 := { s with mdPath := newMdPath, imageFolderPath := newFolder }
    let newJsonPath := getJsonPath s1 newFolder
    if !(Fs.existsPath w1.fs oldImageFolder) then (some true, s1, w1)
    else
      match (if !(Fs.existsPath w1.fs newFolder) then
               Vault.mkdir env w1.fs newFolder else some w1.fs) with
      | none => (none, s1, w1)
      | some fs1 =>
        if oldImageFolder = newFolder then
          if Fs.existsPath fs1 oldJsonPath then
            match Vault.read env fs1 oldJsonPath with
            | none => (none, s1, { w1 with fs := fs1 })
            | some content =>
              match Vault.write env fs1 newJsonPath content with
              | none => (none, s1, { w1 with fs := fs1 })
              | some fs2 =>
                match Vault.remove env fs2 oldJsonPath with
                | none => (none, s1, { w1 with fs := fs2 })
                | some fs3 => (some true, s1, { w1 with fs := fs3 })
          else (some true, s1, { w1 with fs := fs1 })
        else
          match Vault.list env fs1 oldImageFolder with
          | none =>
            (some false, { s1 with mdPath := oldMdPath, imageFolderPath := oldImageFolder },
             { w1 with fs := fs1 })
          | some files =>
            match moveFilesGo env oldImageFolder newFolder files s1 fs1 with
            | (false, s2, fsE) =>
              (some false, { s2 with mdPath := oldMdPath, imageFolderPath := oldImageFolder },
               { w1 with fs := fsE })
            | (true, s2, fs2) =>
              let (_, w2) := saveToJson env s2 { w1 with fs := fs2 }
              match Vault.rmdirRecursive env w2.fs oldImageFolder with
              | none =>
                (some false, { s2 with mdPath := oldMdPath, imageFolderPath := oldImageFolder },
                 w2)
              | some fs3 => (some true, s2, { w2 with fs := fs3 })

/-- `getMarkdownReference` (lines 690-714): empty string for an unknown key;
the label is the key's basename truncated at its last dot; uploaded records
with a nonempty remote path embed the remote URL, all others the
document-relative local path. -/
def getMarkdownReference (s : ManagerState) (localPath : String) : String :=
  match s.images.lookup localPath with
  | none => ""
  | some imageInfo =>
    let imageName := Path.basename localPath
    let imageNameNoExt := (Path.lastDotSplit imageName).1
    if imageInfo.isUploaded && imageInfo.remotePath != "" then
      "![" ++ imageNameNoExt ++ "](" ++ imageInfo.remotePath ++ ")"
    else
      "![" ++ imageNameNoExt ++ "](" ++ getRelativePath s localPath ++ ")"

end DocumentImageManager

/-! ### The manager factory (`ImageManagerFactory`, `src/const/settings.ts`) -/

namespace ImageManagerFactory

/-- `renameManager` (lines 123-144 of the factory source): no-op false when no
manager is cached under `oldPath`; otherwise delegate to the manager's
`renameImageFolder` (the cached entry aliases the mutated manager object, so
its updated state is written back under `oldPath`), and on success the entry
is stored under `newPath` and the `oldPath` entry is deleted.  A propagated
exception (`none`) leaves the cache keyed by `oldPath`. -/
def renameManager (env : Env) (settings : Settings)
    (managers : List (String × ManagerState)) (oldPath newPath : String) (w : World) :
    Option Bool × List (String × ManagerState) × World :=
  match managers.lookup oldPath with
  | none => (some false, managers, w)
  | some manager =>
    match DocumentImageManager.renameImageFolder env settings manager newPath w with
    | (none, m1, w1) => (none, Assoc.set managers oldPath m1, w1)
    | (some success, m1, w1) =>
      let managers1 := Assoc.set managers oldPath m1
      if success then
        (some true, Assoc.erase (Assoc.set managers1 newPath m1) oldPath, w1)
      else (some false, managers1, w1)

end ImageManagerFactory


/-! ### Lemmas about association-list maps (JavaScript Map semantics) -/

theorem lookup_cons {α : Type} (kv : String × α) (rest : List (String × α)) (k : String) :
    List.lookup k (kv :: rest) = if k = kv.1 then some kv.2 else List.lookup k rest := by
  rw [List.lookup]
  by_cases h : k = kv.1
  · simp [h]
  · have hb : (k == kv.1) = false := by simp [h]
    rw [hb, if_neg h]

theorem lookup_append_or {α : Type} (k : String) (m m2 : List (String × α)) :
    List.lookup k (m ++ m2) =
      match List.lookup k m with
      | some v => some v
      | none => List.lookup k m2 := by
  induction m with
  | nil => simp [List.lookup]
  | cons kv rest ih =>
    rw [List.cons_append, lookup_cons, lookup_cons]
    by_cases hk : k = kv.1
    · rw [if_pos hk, if_pos hk]
    · rw [if_neg hk, if_neg hk, ih]

namespace Assoc

theorem lookup_eq_some_mem {α : Type} {m : List (String × α)} {k : String} {v : α}
    (h : m.lookup k = some v) : (k, v) ∈ m := by
  induction m with
  | nil => simp [List.lookup] at h
  | cons kv rest ih =>
    rw [lookup_cons] at h
    by_cases hk : k = kv.1
    · rw [if_pos hk] at h
      simp at h
      have hx : (k, v) = kv := by rw [hk, ← h]
      rw [hx]
      exact List.mem_cons_self kv rest
    · rw [if_neg hk] at h
      exact List.mem_cons_of_mem kv (ih h)

theorem lookup_map_update_self {α : Type} (k : String) (v : α) :
    ∀ m : List (String × α), (m.lookup k).isSome →
      (m.map (fun kv => if kv.1 = k then (k, v) else kv)).lookup k = some v := by
  intro m
  induction m with
  | nil => intro h; simp [List.lookup] at h
  | cons kv rest ih =>
    intro h
    simp only [List.map_cons]
    by_cases hk : kv.1 = k
    · rw [if_pos hk, lookup_cons]
      simp
    · rw [if_neg hk, lookup_cons, if_neg (fun he => hk he.symm)]
      apply ih
      rw [lookup_cons, if_neg (fun he => hk he.symm)] at h
      exact h

theorem lookup_map_update_ne {α : Type} (k k2 : String) (v : α) (h : k2 ≠ k) :
    ∀ m : List (String × α),
      (m.map (fun kv => if kv.1 = k then (k, v) else kv)).lookup k2 = m.lookup k2 := by
  intro m
  induction m with
  | nil => simp
  | cons kv rest ih =>
    simp only [List.map_cons]
    by_cases hk : kv.1 = k
    · rw [if_pos hk, lookup_cons, lookup_cons]
      rw [if_neg (by simpa using h), if_neg (by rw [hk]; exact h)]
      exact ih
    · rw [if_neg hk, lookup_cons, lookup_cons]
      by_cases h2 : k2 = kv.1
      · rw [if_pos h2, if_pos h2]
      · rw [if_neg h2, if_neg h2]
        exact ih

theorem lookup_set_self {α : Type} (m : List (String × α)) (k : String) (v : α) :
    (set m k v).lookup k = some v := by
  unfold set
  split
  · rename_i hsome
    exact lookup_map_update_self k v m hsome
  · rename_i hnone
    rw [lookup_append_or]
    rw [Option.not_isSome_iff_eq_none] at hnone
    rw [hnone]
    simp [lookup_cons]

theorem lookup_set_ne {α : Type} (m : List (String × α)) (k k2 : String) (v : α)
    (h : k2 ≠ k) : (set m k v).lookup k2 = m.lookup k2 := by
  unfold set
  split
  · exact lookup_map_update_ne k k2 v h m
  · rw [lookup_append_or]
    cases hm : List.lookup k2 m with
    | some w => rfl
    | none =>
      simp only
      rw [lookup_cons, if_neg h]
      simp [List.lookup]

theorem lookup_erase_self {α : Type} (m : List (String × α)) (k : String) :
    (erase m k).lookup k = none := by
  unfold erase
  induction m with
  | nil => simp
  | cons kv rest ih =>
    rw [List.filter]
    by_cases hk : kv.1 = k
    · rw [show (kv.1 != k) = false by simp [hk]]
      exact ih
    · rw [show (kv.1 != k) = true by simp [hk]]
      rw [lookup_cons]
      rw [if_neg (fun he => hk he.symm)]
      exact ih

theorem lookup_erase_ne {α : Type} (m : List (String × α)) (k k2 : String) (h : k2 ≠ k) :
    (erase m k).lookup k2 = m.lookup k2 := by
  unfold erase
  induction m with
  | nil => simp
  | cons kv rest ih =>
    rw [List.filter]
    by_cases hk : kv.1 = k
    · rw [show (kv.1 != k) = false by simp [hk]]
      rw [lookup_cons]
      rw [if_neg (by rw [hk]; exact h)]
      exact ih
    · rw [show (kv.1 != k) = true by simp [hk]]
      rw [lookup_cons, lookup_cons]
      by_cases h2 : k2 = kv.1
      · rw [if_pos h2, if_pos h2]
      · rw [if_neg h2, if_neg h2]
        exact ih

theorem mem_set {α : Type} {m : List (String × α)} {k : String} {v : α} {x : String × α}
    (h : x ∈ set m k v) : x ∈ m ∨ x = (k, v) := by
  unfold set at h
  split at h
  · rcases List.mem_map.mp h with ⟨kv, hmem, heq⟩
    by_cases hk : kv.1 = k
    · rw [if_pos hk] at heq
      right
      exact heq.symm
    · rw [if_neg hk] at heq
      left
      rw [← heq]
      exact hmem
  · rcases List.mem_append.mp h with h1 | h1
    · left; exact h1
    · right; simpa using h1

theorem mem_erase {α : Type} {m : List (String × α)} {k : String} {x : String × α}
    (h : x ∈ erase m k) : x ∈ m :=
  List.mem_of_mem_filter h

theorem keys_set_of_mem {α : Type} (m : List (String × α)) (k : String) (v : α)
    (h : (m.lookup k).isSome) : keys (set m k v) = keys m := by
  unfold set keys
  rw [if_pos h]
  rw [List.map_map]
  apply List.map_congr_left
  intro kv _
  by_cases hk : kv.1 = k
  · simp [Function.comp, hk]
  · simp [Function.comp, hk]

end Assoc

/-! ### Lemmas about the template scanner -/

theorem takeWhile_append_of_all {p : Char → Bool} (n : List Char) (hn : n.all p = true)
    (x : Char) (hx : p x = false) (xs : List Char) :
    (n ++ x :: xs).takeWhile p = n ∧ (n ++ x :: xs).dropWhile p = x :: xs := by
  induction n with
  | nil =>
    constructor
    · simp [List.takeWhile, hx]
    · simp [List.dropWhile, hx]
  | cons c rest ih =>
    simp only [List.all_cons, Bool.and_eq_true] at hn
    have := ih hn.2
    constructor
    · rw [List.cons_append, List.takeWhile_cons, if_pos hn.1, this.1]
    · rw [List.cons_append, List.dropWhile_cons, if_pos hn.1, this.2]

theorem takeWhile_append_not_all {p : Char → Bool} (n : List Char) (hn : n.all p = false)
    (xs : List Char) :
    (n ++ xs).takeWhile p = n.takeWhile p ∧ (n ++ xs).dropWhile p = n.dropWhile p ++ xs := by
  induction n with
  | nil => simp at hn
  | cons c rest ih =>
    simp only [List.all_cons, Bool.and_eq_false_iff] at hn
    by_cases hc : p c
    · have hrest : rest.all p = false := by
        rcases hn with h | h
        · rw [hc] at h; simp at h
        · exact h
      have := ih hrest
      constructor
      · rw [List.cons_append, List.takeWhile_cons, if_pos hc, List.takeWhile_cons, if_pos hc,
          this.1]
      · rw [List.cons_append, List.dropWhile_cons, if_pos hc, List.dropWhile_cons, if_pos hc,
          this.2]
    · have hc2 : p c = false := by simpa using hc
      constructor
      · rw [List.cons_append, List.takeWhile_cons, if_neg (by simp [hc2]),
          List.takeWhile_cons, if_neg (by simp [hc2])]
      · rw [List.cons_append, List.dropWhile_cons, if_neg (by simp [hc2]),
          List.dropWhile_cons, if_neg (by simp [hc2]), List.cons_append]

theorem dropWhile_ne_nil_of_not_all {p : Char → Bool} (n : List Char) (hn : n.all p = false) :
    n.dropWhile p ≠ [] := by
  induction n with
  | nil => simp at hn
  | cons c rest ih =>
    simp only [List.all_cons, Bool.and_eq_false_iff] at hn
    by_cases hc : p c
    · have hrest : rest.all p = false := by
        rcases hn with h | h
        · rw [hc] at h; simp at h
        · exact h
      rw [List.dropWhile_cons, if_pos hc]
      exact ih hrest
    · rw [List.dropWhile_cons, if_neg hc]
      simp

theorem head_dropWhile_not {p : Char → Bool} (n : List Char) (d : Char) (ds : List Char)
    (h : n.dropWhile p = d :: ds) : p d = false := by
  induction n with
  | nil => simp [List.dropWhile] at h
  | cons c rest ih =>
    rw [List.dropWhile_cons] at h
    by_cases hc : p c
    · rw [if_pos hc] at h
      exact ih h
    · rw [if_neg hc] at h
      cases h
      simpa using hc

/-- The scanner emits a non-brace head character and continues. -/
theorem scanTemplate_cons_not_lb (ctx : List (String × String)) (c : Char)
    (hc : c ≠ '\x7b') (l : List Char) :
    scanTemplate ctx (c :: l) = c :: scanTemplate ctx l := by
  cases l with
  | nil => rw [scanTemplate, scanTemplate]
  | cons c2 l2 =>
    rw [scanTemplate]
    rw [if_neg (fun hx => hc hx.1)]
/-- Scanning a placeholder at the head of the template: a defined variable is
substituted, an undefined one is kept literally, and scanning continues after
the closing braces. -/
theorem scanTemplate_at_ph (ctx : List (String × String)) (n : List Char)
    (hn : n ≠ []) (hw : n.all wordChar = true) (b : List Char) :
    scanTemplate ctx ('\x7b' :: '\x7b' :: (n ++ '\x7d' :: '\x7d' :: b)) =
      (match ctx.lookup (String.mk n) with
        | some v => v.data ++ scanTemplate ctx b
        | none => '\x7b' :: '\x7b' :: (n ++ '\x7d' :: '\x7d' :: scanTemplate ctx b)) := by
  have hsplit := takeWhile_append_of_all n hw '\x7d' (by decide) ('\x7d' :: b)
  rw [scanTemplate]
  rw [if_pos ⟨rfl, rfl⟩]
  simp only [hsplit.1, hsplit.2]
  rw [if_neg (by simp [hn])]
  rw [if_pos (by simp [twoRB])]
  rw [show ('\x7d' :: '\x7d' :: b).drop 2 = b from rfl]

/-- A template with no placeholder anywhere is scanned to itself. -/
theorem scanTemplate_no_ph (ctx : List (String × String)) :
    ∀ l : List Char, containsPlaceholder l = false → scanTemplate ctx l = l := by
  intro l
  induction l with
  | nil => intro _; rw [scanTemplate]
  | cons c a2 ih =>
    intro ha
    rw [containsPlaceholder, Bool.or_eq_false_iff] at ha
    by_cases hc : c = '\x7b'
    · cases a2 with
      | nil => rw [scanTemplate]
      | cons c2 rest2 =>
        by_cases hc2 : c2 = '\x7b'
        · subst hc hc2
          rw [scanTemplate]
          rw [if_pos ⟨rfl, rfl⟩]
          by_cases hrun : (List.takeWhile wordChar rest2).isEmpty
          · rw [if_pos hrun]
            rw [ih ha.2]
          · rw [if_neg hrun]
            have hpm := ha.1
            rw [phMatchAt] at hpm
            have hne : (List.takeWhile wordChar rest2).isEmpty = false := by
              simpa using hrun
            simp only [beq_self_eq_true, Bool.true_and, hne, Bool.not_false,
              Bool.true_and] at hpm
            rw [if_neg (by simp [hpm])]
            rw [ih ha.2]
        · rw [scanTemplate]
          rw [if_neg (fun hx => hc2 hx.2)]
          rw [ih ha.2]
    · rw [scanTemplate_cons_not_lb ctx c hc, ih ha.2]

/-- Splitting a template at a placeholder after a placeholder-free prefix:
the prefix is emitted verbatim and the placeholder is substituted (or kept
literally when its variable is undefined). -/
theorem scanTemplate_split (ctx : List (String × String)) (n : List Char)
    (hn : n ≠ []) (hw : n.all wordChar = true) :
    ∀ a b : List Char, containsPlaceholder a = false →
      scanTemplate ctx (a ++ '\x7b' :: '\x7b' :: (n ++ '\x7d' :: '\x7d' :: b)) =
        a ++ (match ctx.lookup (String.mk n) with
          | some v => v.data ++ scanTemplate ctx b
          | none => '\x7b' :: '\x7b' :: (n ++ '\x7d' :: '\x7d' :: scanTemplate ctx b)) := by
  intro a
  induction a with
  | nil =>
    intro b _
    rw [List.nil_append, List.nil_append]
    exact scanTemplate_at_ph ctx n hn hw b
  | cons c a2 ih =>
    intro b ha
    rw [containsPlaceholder, Bool.or_eq_false_iff] at ha
    by_cases hc : c = '\x7b'
    · cases a2 with
      | nil =>
        subst hc
        rw [List.cons_append, List.nil_append]
        rw [scanTemplate]
        rw [if_pos ⟨rfl, rfl⟩]
        rw [show List.takeWhile wordChar ('\x7b' :: (n ++ '\x7d' :: '\x7d' :: b)) = [] by
          rw [List.takeWhile_cons, if_neg (by simp [wordChar])]]
        rw [if_pos (by simp)]
        rw [scanTemplate_at_ph ctx n hn hw b]
        rw [List.singleton_append]
      | cons c2 a3 =>
        by_cases hc2 : c2 = '\x7b'
        · subst hc hc2
          rw [List.cons_append, List.cons_append]
          rw [scanTemplate]
          rw [if_pos ⟨rfl, rfl⟩]
          have hemit :
              '\x7b' :: scanTemplate ctx
                  ('\x7b' :: (a3 ++ '\x7b' :: '\x7b' :: (n ++ '\x7d' :: '\x7d' :: b))) =
                '\x7b' :: '\x7b' :: a3 ++
                  (match ctx.lookup (String.mk n) with
                    | some v => v.data ++ scanTemplate ctx b
                    | none =>
                      '\x7b' :: '\x7b' :: (n ++ '\x7d' :: '\x7d' :: scanTemplate ctx b)) := by
            have hx := ih b ha.2
            rw [List.cons_append] at hx
            rw [hx]
            simp only [List.cons_append]
          by_cases hrun :
              (List.takeWhile wordChar
                (a3 ++ '\x7b' :: '\x7b' :: (n ++ '\x7d' :: '\x7d' :: b))).isEmpty
          · rw [if_pos hrun]
            exact hemit
          · rw [if_neg hrun]
            have htwo : twoRB (List.dropWhile wordChar
                (a3 ++ '\x7b' :: '\x7b' :: (n ++ '\x7d' :: '\x7d' :: b))) = false := by
              by_cases hall : a3.all wordChar = true
              · have hsp := takeWhile_append_of_all a3 hall '\x7b' (by simp [wordChar])
                  ('\x7b' :: (n ++ '\x7d' :: '\x7d' :: b))
                rw [hsp.2]
                simp [twoRB]
              · have hall2 : a3.all wordChar = false := by simpa using hall
                have hsp := takeWhile_append_not_all a3 hall2
                  ('\x7b' :: '\x7b' :: (n ++ '\x7d' :: '\x7d' :: b))
                rw [hsp.2]
                have hne : (List.takeWhile wordChar a3).isEmpty = false := by
                  rw [hsp.1] at hrun
                  simpa using hrun
                have hpm := ha.1
                rw [phMatchAt] at hpm
                simp only [beq_self_eq_true, Bool.true_and, hne, Bool.not_false,
                  Bool.true_and] at hpm
                obtain ⟨d, ds, hd⟩ : ∃ d ds, List.dropWhile wordChar a3 = d :: ds := by
                  cases hcase : List.dropWhile wordChar a3 with
                  | nil => exact absurd hcase (dropWhile_ne_nil_of_not_all a3 hall2)
                  | cons d ds => exact ⟨d, ds, rfl⟩
                rw [hd]
                rw [hd] at hpm
                cases ds with
                | nil => simp [twoRB]
                | cons d2 ds2 =>
                  simp only [List.cons_append]
                  rw [twoRB] at hpm ⊢
                  exact hpm
            rw [if_neg (by simp [htwo])]
            exact hemit
        · rw [List.cons_append, List.cons_append]
          rw [scanTemplate]
          rw [if_neg (fun hx => hc2 hx.2)]
          have hx := ih b ha.2
          rw [List.cons_append] at hx
          rw [hx]
          simp only [List.cons_append]
    · rw [List.cons_append, scanTemplate_cons_not_lb ctx c hc, ih b ha.2, List.cons_append]

/-- C7: `MagicVariableProcessor.process` replaces each occurrence of
`\x7b\x7bname\x7d\x7d` whose name is a defined context key by the context's value for it,
leaves any occurrence with an undefined or unknown name as the literal text,
returns the empty string on the empty template, and is the identity on every
template containing no placeholder. -/
theorem C7_template_substitution :
    (∀ ctx, MagicVariableProcessor.process "" ctx = "") ∧
    (∀ (t : String) (ctx : List (String × String)), containsPlaceholder t.data = false →
      MagicVariableProcessor.process t ctx = t) ∧
    (∀ (a n b : List Char) (ctx : List (String × String)) (v : String),
      containsPlaceholder a = false → n ≠ [] → n.all wordChar = true →
      ctx.lookup (String.mk n) = some v →
      MagicVariableProcessor.process
          (String.mk (a ++ '\x7b' :: '\x7b' :: (n ++ '\x7d' :: '\x7d' :: b))) ctx =
        String.mk (a ++ (v.data ++ scanTemplate ctx b))) ∧
    (∀ (a n b : List Char) (ctx : List (String × String)),
      containsPlaceholder a = false → n ≠ [] → n.all wordChar = true →
      ctx.lookup (String.mk n) = none →
      MagicVariableProcessor.process
          (String.mk (a ++ '\x7b' :: '\x7b' :: (n ++ '\x7d' :: '\x7d' :: b))) ctx =
        String.mk (a ++ ('\x7b' :: '\x7b' :: (n ++ '\x7d' :: '\x7d' :: scanTemplate ctx b)))) := by
  refine ⟨?_, ?_, ?_, ?_⟩
  · intro ctx
    rw [MagicVariableProcessor.process, if_pos rfl]
  · intro t ctx ht
    rw [MagicVariableProcessor.process]
    by_cases h0 : t = ""
    · rw [if_pos h0, h0]
    · rw [if_neg h0, scanTemplate_no_ph ctx t.data ht]
  · intro a n b ctx v ha hn hw hl
    rw [MagicVariableProcessor.process]
    rw [if_neg (by simp [String.ext_iff])]
    have h := scanTemplate_split ctx n hn hw a b ha
    rw [show (String.mk (a ++ '\x7b' :: '\x7b' :: (n ++ '\x7d' :: '\x7d' :: b))).data =
      a ++ '\x7b' :: '\x7b' :: (n ++ '\x7d' :: '\x7d' :: b) from rfl]
    rw [h, hl]
  · intro a n b ctx ha hn hw hl
    rw [MagicVariableProcessor.process]
    rw [if_neg (by simp [String.ext_iff])]
    have h := scanTemplate_split ctx n hn hw a b ha
    rw [show (String.mk (a ++ '\x7b' :: '\x7b' :: (n ++ '\x7d' :: '\x7d' :: b))).data =
      a ++ '\x7b' :: '\x7b' :: (n ++ '\x7d' :: '\x7d' :: b) from rfl]
    rw [h, hl]

theorem C7_template_substitution_witness :
    MagicVariableProcessor.process
        (String.mk ("img.".data ++ '\x7b' :: '\x7b' :: ("name".data ++ '\x7d' :: '\x7d' :: ".png".data)))
        [("name", "V")] =
      String.mk ("img.".data ++ ("V".data ++ scanTemplate [("name", "V")] ".png".data)) ∧
    MagicVariableProcessor.process
        (String.mk ("x".data ++ '\x7b' :: '\x7b' :: ("zz".data ++ '\x7d' :: '\x7d' :: "y".data)))
        [("name", "V")] =
      String.mk ("x".data ++ ('\x7b' :: '\x7b' :: ("zz".data ++ '\x7d' :: '\x7d' ::
        scanTemplate [("name", "V")] "y".data))) ∧
    MagicVariableProcessor.process "" [("name", "V")] = "" ∧
    MagicVariableProcessor.process "plain/path.png" [("name", "V")] = "plain/path.png" := by
  refine ⟨?_, ?_, ?_, ?_⟩
  · exact C7_template_substitution.2.2.1 "img.".data "name".data ".png".data [("name", "V")] "V"
      (by decide) (by decide) (by decide) (by decide)
  · exact C7_template_substitution.2.2.2 "x".data "zz".data "y".data [("name", "V")]
      (by decide) (by decide) (by decide) (by decide)
  · exact C7_template_substitution.1 [("name", "V")]
  · exact C7_template_substitution.2.1 "plain/path.png" [("name", "V")] (by decide)

/-! ### Concrete fixtures shared by the claim witnesses and counterexamples -/

namespace Fix

/-- An environment with no adapter failures whose uploader always throws. -/
def envPlain : Env :=
  { contextAt := fun _ _ => [], nowAt := fun n => 100 + n,
    uploadResult := fun _ => none, fetchResult := fun _ => none, failPaths := [] }

/-- Same, but `remove`/`read`/… on `n/a.png` throws. -/
def envFailA : Env := { envPlain with failPaths := ["n/a.png"] }

def infoY : ImageInfo :=
  { localPath := "d/y.png", remotePath := "https://x/y.png", isUploaded := true }

def infoImg : ImageInfo :=
  { localPath := "d/img", remotePath := "https://x/y.png", isUploaded := true }

/-- A manager holding an uploaded record keyed by a path with an extension and
one keyed by an extensionless path. -/
def sRef : ManagerState :=
  { mdPath := "n/a.md", imageFolderPath := "n/F",
    images := [("d/y.png", infoY), ("d/img", infoImg)] }

def infoA : ImageInfo := { localPath := "n/a.png", remotePath := "", isUploaded := false }

/-- A one-record manager for `n/a.md` whose asset folder is the document's
directory (the folder `settingsPlain`'s empty template resolves to). -/
def sA : ManagerState :=
  { mdPath := "n/a.md", imageFolderPath := "n", images := [("n/a.png", infoA)] }

def fsA : Fs := { files := [("n/a.png", .binary [1])], dirs := ["n"] }

def wA : World := { fs := fsA, clock := 0, uploads := [] }

/-- Settings with the empty folder template: the asset folder resolves to the
document's own directory. -/
def settingsPlain : Settings :=
  { isAutoUpload := false, isDeleteTemp := false, tempFolderPath := "", tempFileFormat := "f" }

end Fix

/-- C9 counterexample: for the known key `"d/img"` (base filename `img`, no
extension) of an uploaded record with remote path `https://x/y.png`,
`getMarkdownReference` returns an embed with an empty label, not the base
filename `img` the claim requires. -/
theorem C9_markdown_reference_counterexample :
    DocumentImageManager.getMarkdownReference Fix.sRef "d/img" = "![](https://x/y.png)" ∧
    ("![](https://x/y.png)" : String) ≠ "![img](https://x/y.png)" := by
  constructor
  · decide
  · decide

/-- C9 (amended): `getMarkdownReference` returns the empty string for an
unknown key; for a known record it returns an embed whose label is the key's
base filename truncated at its last dot (empty when the name has no dot),
whose target is the remote URL when `isUploaded` is true and `remotePath` is
nonempty, and the document-relative local path otherwise. -/
theorem C9_markdown_reference (s : ManagerState) (k : String) :
    (s.images.lookup k = none → DocumentImageManager.getMarkdownReference s k = "") ∧
    (∀ i : ImageInfo, s.images.lookup k = some i → i.isUploaded = true → i.remotePath ≠ "" →
      DocumentImageManager.getMarkdownReference s k =
        "![" ++ (Path.lastDotSplit (Path.basename k)).1 ++ "](" ++ i.remotePath ++ ")") ∧
    (∀ i : ImageInfo, s.images.lookup k = some i →
      i.isUploaded = false ∨ i.remotePath = "" →
      DocumentImageManager.getMarkdownReference s k =
        "![" ++ (Path.lastDotSplit (Path.basename k)).1 ++ "](" ++
          DocumentImageManager.getRelativePath s k ++ ")") := by
  refine ⟨?_, ?_, ?_⟩
  · intro h
    rw [DocumentImageManager.getMarkdownReference, h]
  · intro i hi hup hre
    simp only [DocumentImageManager.getMarkdownReference, hi]
    rw [if_pos (by simp [hup, hre])]
  · intro i hi hcase
    simp only [DocumentImageManager.getMarkdownReference, hi]
    rw [if_neg (by rcases hcase with h | h <;> simp [h])]

/-- C9 witness: the spec's own scenario, reproduced by applying the amended
theorem at the record `d/y.png ↦ (uploaded, https://x/y.png)`: the result is
`![y](https://x/y.png)`; plus the unknown-key case. -/
theorem C9_markdown_reference_witness :
    DocumentImageManager.getMarkdownReference Fix.sRef "d/y.png" = "![y](https://x/y.png)" ∧
    DocumentImageManager.getMarkdownReference Fix.sRef "zz" = "" := by
  constructor
  · have h := (C9_markdown_reference Fix.sRef "d/y.png").2.1 Fix.infoY (by decide) (by decide)
      (by decide)
    rw [h]
    decide
  · exact (C9_markdown_reference Fix.sRef "zz").1 (by decide)

/-- C4 counterexample: for a known key whose file deletion throws,
`removeImage` returns false with the manager state unchanged: the map entry
is NOT removed in-memory, contrary to the claim. -/
theorem C4_removeImage_counterexample :
    DocumentImageManager.removeImage Fix.envFailA Fix.sA "n/a.png" Fix.wA =
      (false, Fix.sA, Fix.wA) ∧
    Fix.sA.images.lookup "n/a.png" ≠ none := by
  constructor
  · decide
  · decide

/-- C4 (amended): `removeImage` is a no-op returning false on an unknown key;
on a known key whose on-disk file exists but whose deletion throws it returns
false and leaves the manager (map included) unchanged; otherwise it removes
the entry and returns true. -/
theorem C4_removeImage (env : Env) (s : ManagerState) (k : String) (w : World) :
    (s.images.lookup k = none →
      DocumentImageManager.removeImage env s k w = (false, s, w)) ∧
    ((s.images.lookup k).isSome → Fs.existsPath w.fs k = true →
      env.failPaths.contains k = true →
      DocumentImageManager.removeImage env s k w = (false, s, w)) ∧
    ((s.images.lookup k).isSome →
      (Fs.existsPath w.fs k = false ∨ env.failPaths.contains k = false) →
      (DocumentImageManager.removeImage env s k w).1 = true ∧
      (DocumentImageManager.removeImage env s k w).2.1.images = Assoc.erase s.images k) := by
  refine ⟨?_, ?_, ?_⟩
  · intro h
    rw [DocumentImageManager.removeImage, h]
  · intro h1 h2 h3
    obtain ⟨i, hi⟩ := Option.isSome_iff_exists.mp h1
    rw [DocumentImageManager.removeImage, hi]
    rw [if_pos h2, Vault.remove, if_pos h3]
  · intro h1 h2
    obtain ⟨i, hi⟩ := Option.isSome_iff_exists.mp h1
    rw [DocumentImageManager.removeImage, hi]
    rcases h2 with h | h
    · rw [if_neg (by simp [h])]
      constructor <;> simp
    · by_cases he : Fs.existsPath w.fs k = true
      · rw [if_pos he, Vault.remove, if_neg (by rw [h]; exact Bool.false_ne_true)]
        constructor <;> simp
      · rw [if_neg he]
        constructor <;> simp

/-- C4 witness: applying the amended theorem at concrete inputs: unknown key
(no-op false) and successful removal of a known key. -/
theorem C4_removeImage_witness :
    DocumentImageManager.removeImage Fix.envPlain Fix.sA "zz" Fix.wA = (false, Fix.sA, Fix.wA) ∧
    (DocumentImageManager.removeImage Fix.envPlain Fix.sA "n/a.png" Fix.wA).1 = true ∧
    (DocumentImageManager.removeImage Fix.envPlain Fix.sA "n/a.png" Fix.wA).2.1.images =
      Assoc.erase Fix.sA.images "n/a.png" := by
  refine ⟨?_, ?_, ?_⟩
  · exact (C4_removeImage Fix.envPlain Fix.sA "zz" Fix.wA).1 (by decide)
  · exact ((C4_removeImage Fix.envPlain Fix.sA "n/a.png" Fix.wA).2.2 (by decide)
      (Or.inr (by decide))).1
  · exact ((C4_removeImage Fix.envPlain Fix.sA "n/a.png" Fix.wA).2.2 (by decide)
      (Or.inr (by decide))).2

/-- C10: on a manager with an empty images map, `renameImageFolder` returns
true before touching `mdPath` or `imageFolderPath` (they stay derived from the
old document path), so a successful `renameManager` re-keys the factory cache
to `newPath` while the cached manager's `mdPath` still equals `oldPath`. -/
theorem C10_rename_empty_manager (env : Env) (settings : Settings) :
    (∀ (s : ManagerState) (p : String) (w : World), s.images = [] →
      DocumentImageManager.renameImageFolder env settings s p w = (some true, s, w)) ∧
    (∀ (f : List (String × ManagerState)) (m : ManagerState) (oldPath newPath : String)
        (w : World), oldPath ≠ newPath → f.lookup oldPath = some m → m.images = [] →
        m.mdPath = oldPath →
      (ImageManagerFactory.renameManager env settings f oldPath newPath w).1 = some true ∧
      (ImageManagerFactory.renameManager env settings f oldPath newPath w).2.1.lookup newPath =
        some m ∧
      m.mdPath = oldPath) := by
  have hempty : ∀ (s : ManagerState) (p : String) (w : World), s.images = [] →
      DocumentImageManager.renameImageFolder env settings s p w = (some true, s, w) := by
    intro s p w h
    rw [DocumentImageManager.renameImageFolder, if_pos (by rw [h]; rfl)]
  refine ⟨hempty, ?_⟩
  intro f m oldPath newPath w hne hl hm hmd
  simp only [ImageManagerFactory.renameManager, hl, hempty m newPath w hm, if_pos]
  refine ⟨trivial, ?_, hmd⟩
  rw [Assoc.lookup_erase_ne _ _ _ (fun he => hne he.symm)]
  rw [Assoc.lookup_set_self]

/-- C10 witness: a concrete empty-map manager cached under `n/a.md` is
re-keyed to `n/b.md` by `renameManager` while its `mdPath` stays `n/a.md`. -/
theorem C10_rename_empty_manager_witness :
    (ImageManagerFactory.renameManager Fix.envPlain Fix.settingsPlain
      [("n/a.md", { mdPath := "n/a.md", imageFolderPath := "n/F", images := [] })]
      "n/a.md" "n/b.md" Fix.wA).1 = some true ∧
    (ImageManagerFactory.renameManager Fix.envPlain Fix.settingsPlain
      [("n/a.md", { mdPath := "n/a.md", imageFolderPath := "n/F", images := [] })]
      "n/a.md" "n/b.md" Fix.wA).2.1.lookup "n/b.md" =
      some { mdPath := "n/a.md", imageFolderPath := "n/F", images := [] } := by
  have h := (C10_rename_empty_manager Fix.envPlain Fix.settingsPlain).2
    [("n/a.md", { mdPath := "n/a.md", imageFolderPath := "n/F", images := [] })]
    { mdPath := "n/a.md", imageFolderPath := "n/F", images := [] }
    "n/a.md" "n/b.md" Fix.wA (by decide) (by decide) rfl rfl
  exact ⟨h.1, h.2.1⟩

/-! ### Filesystem helper lemmas -/

theorem lookup_filter_none {α : Type} (l : List (String × α)) (k : String)
    (q : String × α → Bool) (h : l.lookup k = none) : (l.filter q).lookup k = none := by
  induction l with
  | nil => simp
  | cons kv rest ih =>
    rw [lookup_cons] at h
    by_cases hk : k = kv.1
    · rw [if_pos hk] at h
      cases h
    · rw [if_neg hk] at h
      rw [List.filter]
      cases hq : q kv with
      | false => exact ih h
      | true =>
        rw [lookup_cons, if_neg hk]
        exact ih h

theorem contains_filter_false (l : List String) (x : String) (q : String → Bool)
    (h : l.contains x = false) : (l.filter q).contains x = false := by
  rw [← Bool.not_eq_true] at h ⊢
  intro hc
  exact h (List.elem_iff.mpr (List.mem_of_mem_filter (List.elem_iff.mp hc)))

theorem contains_rmdir_self_false (l : List String) (p : String) :
    (l.filter (fun d => !(d == p || (p ++ "/").data.isPrefixOf d.data))).contains p = false := by
  rw [← Bool.not_eq_true]
  intro hc
  have hmem := List.of_mem_filter (List.elem_iff.mp hc)
  simp at hmem

theorem existsPath_false_parts (fs : Fs) (p : String) (h : Fs.existsPath fs p = false) :
    fs.files.lookup p = none ∧ fs.dirs.contains p = false := by
  rw [Fs.existsPath, Bool.or_eq_false_iff] at h
  constructor
  · cases hcase : fs.files.lookup p with
    | none => rfl
    | some v =>
      rw [hcase] at h
      simp at h
  · exact h.2

theorem existsPath_set_files (fs : Fs) (p : String) (c : FileContent) (q : String)
    (h : Fs.existsPath fs q = true) :
    Fs.existsPath { fs with files := Assoc.set fs.files p c } q = true := by
  rw [Fs.existsPath] at h ⊢
  rcases Bool.or_eq_true_iff.mp h with h1 | h1
  · by_cases hq : q = p
    · subst hq
      rw [Assoc.lookup_set_self]
      simp
    · rw [Assoc.lookup_set_ne _ _ _ _ hq, h1]
      simp
  · rw [h1]
    simp

theorem existsPath_set_files_self (fs : Fs) (p : String) (c : FileContent) :
    Fs.existsPath { fs with files := Assoc.set fs.files p c } p = true := by
  rw [Fs.existsPath, Assoc.lookup_set_self]
  simp

/-- C2: after `saveToJson` returns success, the sidecar file and the asset
folder exist exactly when the images map is nonempty: an empty map deletes
both, a nonempty map (re)creates both.  (The two side conditions exclude a
filesystem holding a directory named like the sidecar file or a plain file
named like the asset folder, which the manager never creates.) -/
theorem C2_saveToJson_existence (env : Env) (s : ManagerState) (w : World)
    (hdirs : w.fs.dirs.contains (DocumentImageManager.getJsonPath s s.imageFolderPath) = false)
    (hfile : w.fs.files.lookup s.imageFolderPath = none)
    (hok : (DocumentImageManager.saveToJson env s w).1 = true) :
    (Fs.existsPath (DocumentImageManager.saveToJson env s w).2.fs
        (DocumentImageManager.getJsonPath s s.imageFolderPath) = true ↔ s.images ≠ []) ∧
    (Fs.existsPath (DocumentImageManager.saveToJson env s w).2.fs s.imageFolderPath = true ↔
      s.images ≠ []) := by
  by_cases himg : s.images.length = 0
  · have hnil : s.images = [] := List.length_eq_zero.mp himg
    simp only [DocumentImageManager.saveToJson, if_pos himg] at hok ⊢
    split at hok
    · simp at hok
    · rename_i fs1 heq1
      split at hok
      · simp at hok
      · rename_i fs2 heq2
        have hfs1facts :
            fs1.files.lookup (DocumentImageManager.getJsonPath s s.imageFolderPath) = none ∧
            fs1.files.lookup s.imageFolderPath = none ∧ fs1.dirs = w.fs.dirs := by
          by_cases he : Fs.existsPath w.fs (DocumentImageManager.getJsonPath s s.imageFolderPath)
          · rw [if_pos he, Vault.remove] at heq1
            split at heq1
            · cases heq1
            · injection heq1 with heq1
              subst heq1
              exact ⟨Assoc.lookup_erase_self w.fs.files _, lookup_filter_none _ _ _ hfile, rfl⟩
          · rw [if_neg he] at heq1
            injection heq1 with heq1
            subst heq1
            have hp := existsPath_false_parts _ _ (Bool.eq_false_iff.mpr he)
            exact ⟨hp.1, hfile, rfl⟩
        have hfs2facts :
            fs2.files.lookup (DocumentImageManager.getJsonPath s s.imageFolderPath) = none ∧
            fs2.files.lookup s.imageFolderPath = none ∧
            fs2.dirs.contains (DocumentImageManager.getJsonPath s s.imageFolderPath) = false ∧
            fs2.dirs.contains s.imageFolderPath = false := by
          by_cases he : Fs.existsPath fs1 s.imageFolderPath
          · rw [if_pos he, Vault.rmdirRecursive] at heq2
            split at heq2
            · cases heq2
            · injection heq2 with heq2
              subst heq2
              refine ⟨lookup_filter_none _ _ _ hfs1facts.1,
                lookup_filter_none _ _ _ hfs1facts.2.1, ?_, contains_rmdir_self_false _ _⟩
              apply contains_filter_false
              rw [hfs1facts.2.2]
              exact hdirs
          · rw [if_neg he] at heq2
            injection heq2 with heq2
            subst heq2
            have hp := existsPath_false_parts _ _ (Bool.eq_false_iff.mpr he)
            refine ⟨hfs1facts.1, hp.1, ?_, hp.2⟩
            rw [hfs1facts.2.2]
            exact hdirs
        refine ⟨iff_of_false ?_ (by simp [hnil]), iff_of_false ?_ (by simp [hnil])⟩
        · show ¬(Fs.existsPath fs2 (DocumentImageManager.getJsonPath s s.imageFolderPath) = true)
          rw [Fs.existsPath, hfs2facts.1, hfs2facts.2.2.1]
          simp
        · show ¬(Fs.existsPath fs2 s.imageFolderPath = true)
          rw [Fs.existsPath, hfs2facts.2.1, hfs2facts.2.2.2]
          simp
  · have hne : s.images ≠ [] := by
      intro hh
      rw [hh] at himg
      exact himg rfl
    simp only [DocumentImageManager.saveToJson, if_neg himg] at hok ⊢
    split at hok
    · simp at hok
    · rename_i fs1 heq1
      have hfs1 : Fs.existsPath fs1 s.imageFolderPath = true := by
        by_cases he : Fs.existsPath w.fs s.imageFolderPath
        · rw [if_neg (by simp [he])] at heq1
          injection heq1 with heq1
          subst heq1
          exact he
        · rw [if_pos (by simp [he]), Vault.mkdir] at heq1
          split at heq1
          · cases heq1
          · injection heq1 with heq1
            subst heq1
            rw [Fs.existsPath]
            simp
      split at hok
      · simp at hok
      · rename_i fs2 heq2
        rw [Vault.write] at heq2
        split at heq2
        · cases heq2
        · injection heq2 with heq2
          subst heq2
          refine ⟨iff_of_true ?_ hne, iff_of_true ?_ hne⟩
          · exact existsPath_set_files_self fs1 _ _
          · exact existsPath_set_files fs1 _ _ _ hfs1

/-- C2 witness: a concrete successful save of a one-record manager, through
the theorem: afterwards both the sidecar `n/F/a.json` and the folder `n/F`
exist (the map is nonempty). -/
theorem C2_saveToJson_existence_witness :
    (Fs.existsPath (DocumentImageManager.saveToJson Fix.envPlain Fix.sA Fix.wA).2.fs
        (DocumentImageManager.getJsonPath Fix.sA Fix.sA.imageFolderPath) = true ↔
      Fix.sA.images ≠ []) ∧
    (Fs.existsPath (DocumentImageManager.saveToJson Fix.envPlain Fix.sA Fix.wA).2.fs
        Fix.sA.imageFolderPath = true ↔ Fix.sA.images ≠ []) :=
  C2_saveToJson_existence Fix.envPlain Fix.sA Fix.wA (by decide) (by decide) (by decide)

/-- Every `false` return of `renameImageFolder` comes from the catch block,
which restores `mdPath` and `imageFolderPath` to their pre-rename values
(partial file moves and partially re-keyed records are not restored). -/
theorem renameImageFolder_false_rollback (env : Env) (settings : Settings) (s : ManagerState)
    (p : String) (w : World) (m1 : ManagerState) (w1 : World)
    (h : DocumentImageManager.renameImageFolder env settings s p w = (some false, m1, w1)) :
    m1.mdPath = s.mdPath ∧ m1.imageFolderPath = s.imageFolderPath := by
  simp only [DocumentImageManager.renameImageFolder] at h
  iterate 16 all_goals try split at h
  all_goals try simp only [Prod.mk.injEq] at h
  all_goals
    first
    | (exfalso
       revert h
       simp
       done)
    | (obtain ⟨-, h1, h2⟩ := h
       subst h1
       exact ⟨rfl, rfl⟩)

/-- C8 counterexample: with `oldPath = newPath` (and a stable folder
template), `renameImageFolder` succeeds, but the factory's
`set newPath; delete oldPath` sequence deletes the just-stored entry: the
call returns true yet the cache maps neither `newPath` nor `oldPath`, so the
entry is not re-keyed to `newPath` as the claim states. -/
theorem C8_renameManager_counterexample :
    (ImageManagerFactory.renameManager Fix.envPlain Fix.settingsPlain
        [("n/a.md", Fix.sA)] "n/a.md" "n/a.md" Fix.wA).1 = some true ∧
    (ImageManagerFactory.renameManager Fix.envPlain Fix.settingsPlain
        [("n/a.md", Fix.sA)] "n/a.md" "n/a.md" Fix.wA).2.1.lookup "n/a.md" = none := by
  constructor
  · decide
  · decide

/-- C8 (amended, `oldPath ≠ newPath`): `renameManager` is a no-op returning
false when no manager is cached under `oldPath`; otherwise its result is the
result of the manager's `renameImageFolder(newPath)`, on true the cache entry
is re-keyed from `oldPath` to `newPath` (holding the renamed manager), and on
false the cache still maps `oldPath` to the manager, whose `mdPath` and
`imageFolderPath` are rolled back to their pre-rename values. -/
theorem C8_renameManager (env : Env) (settings : Settings)
    (f : List (String × ManagerState)) (oldPath newPath : String) (w : World)
    (hne : oldPath ≠ newPath) :
    (f.lookup oldPath = none →
      ImageManagerFactory.renameManager env settings f oldPath newPath w = (some false, f, w)) ∧
    (∀ m : ManagerState, f.lookup oldPath = some m →
      (ImageManagerFactory.renameManager env settings f oldPath newPath w).1 =
        (DocumentImageManager.renameImageFolder env settings m newPath w).1 ∧
      ((ImageManagerFactory.renameManager env settings f oldPath newPath w).1 = some true →
        (ImageManagerFactory.renameManager env settings f oldPath newPath w).2.1.lookup newPath =
          some (DocumentImageManager.renameImageFolder env settings m newPath w).2.1 ∧
        (ImageManagerFactory.renameManager env settings f oldPath newPath w).2.1.lookup oldPath =
          none) ∧
      ((ImageManagerFactory.renameManager env settings f oldPath newPath w).1 = some false →
        ∃ m1 : ManagerState,
          (ImageManagerFactory.renameManager env settings f oldPath newPath w).2.1.lookup
              oldPath = some m1 ∧
          m1.mdPath = m.mdPath ∧ m1.imageFolderPath = m.imageFolderPath)) := by
  constructor
  · intro hnone
    rw [ImageManagerFactory.renameManager, hnone]
  · intro m hm
    rcases hrim : DocumentImageManager.renameImageFolder env settings m newPath w with ⟨r, m1, w1⟩
    simp only [ImageManagerFactory.renameManager, hm, hrim]
    cases r with
    | none =>
      dsimp only
      refine ⟨rfl, ?_, ?_⟩
      · intro hcon
        simp at hcon
      · intro hcon
        simp at hcon
    | some b =>
      cases b with
      | true =>
        dsimp only
        rw [if_pos rfl]
        refine ⟨rfl, ?_, ?_⟩
        · intro _
          constructor
          · rw [Assoc.lookup_erase_ne _ _ _ (fun he => hne he.symm), Assoc.lookup_set_self]
          · rw [Assoc.lookup_erase_self]
        · intro hcon
          simp at hcon
      | false =>
        dsimp only
        rw [if_neg (by simp)]
        refine ⟨rfl, ?_, ?_⟩
        · intro hcon
          simp at hcon
        · intro _
          refine ⟨m1, ?_, ?_, ?_⟩
          · rw [Assoc.lookup_set_self]
          · exact (renameImageFolder_false_rollback env settings m newPath w m1 w1 hrim).1
          · exact (renameImageFolder_false_rollback env settings m newPath w m1 w1 hrim).2

/-- C8 witness: through the amended theorem at concrete inputs: an empty
cache gives a no-op false, and a failing move (the image file's read throws)
returns false leaving the cache keyed by `oldPath` with the manager's paths
rolled back. -/
theorem C8_renameManager_witness :
    ImageManagerFactory.renameManager Fix.envFailA Fix.settingsPlain [] "n/a.md" "m/b.md"
      Fix.wA = (some false, [], Fix.wA) ∧
    (∃ m1 : ManagerState,
      (ImageManagerFactory.renameManager Fix.envFailA Fix.settingsPlain
          [("n/a.md", Fix.sA)] "n/a.md" "m/b.md" Fix.wA).2.1.lookup "n/a.md" = some m1 ∧
      m1.mdPath = Fix.sA.mdPath ∧ m1.imageFolderPath = Fix.sA.imageFolderPath) := by
  constructor
  · exact (C8_renameManager Fix.envFailA Fix.settingsPlain [] "n/a.md" "m/b.md" Fix.wA
      (by decide)).1 (by decide)
  · exact ((C8_renameManager Fix.envFailA Fix.settingsPlain [("n/a.md", Fix.sA)] "n/a.md"
      "m/b.md" Fix.wA (by decide)).2 Fix.sA (by decide)).2.2 (by decide)
/-! ### Rebuilding a map from its saved entries -/

theorem Assoc.set_append_of_lookup_none {α : Type} (acc : List (String × α)) (k : String)
    (v : α) (h : acc.lookup k = none) : Assoc.set acc k v = acc ++ [(k, v)] := by
  unfold Assoc.set
  rw [if_neg (by rw [h]; simp)]

theorem Assoc.foldl_set_eq_append {α : Type} :
    ∀ (l acc : List (String × α)), (∀ k ∈ Assoc.keys l, acc.lookup k = none) →
      (Assoc.keys l).Nodup →
      l.foldl (fun a kv => Assoc.set a kv.1 kv.2) acc = acc ++ l := by
  intro l
  induction l with
  | nil =>
    intro acc _ _
    simp
  | cons kv rest ih =>
    intro acc hnone hnodup
    have hk : Assoc.keys (kv :: rest) = kv.1 :: Assoc.keys rest := rfl
    rw [hk] at hnone hnodup
    rw [List.foldl_cons]
    rw [Assoc.set_append_of_lookup_none acc kv.1 kv.2 (hnone kv.1 (List.mem_cons_self _ _))]
    rw [ih (acc ++ [(kv.1, kv.2)]) ?_ (List.Nodup.of_cons hnodup)]
    · rw [List.append_assoc]
      rfl
    · intro k hkmem
      rw [lookup_append_or, hnone k (List.mem_cons_of_mem _ hkmem)]
      have hkne : k ≠ kv.1 := by
        intro he
        subst he
        exact (List.nodup_cons.mp hnodup).1 hkmem
      rw [lookup_cons, if_neg hkne]
      rfl

theorem Assoc.ofList_nodup {α : Type} (l : List (String × α)) (h : (Assoc.keys l).Nodup) :
    l.foldl (fun a kv => Assoc.set a kv.1 kv.2) [] = l := by
  have hx := Assoc.foldl_set_eq_append l [] (fun k _ => rfl) h
  simpa using hx

/-! ### C3 fixtures: a folder template with a volatile variable -/

namespace Fix

def ctxA : List (String × String) := [("r", "aa")]

def ctxB : List (String × String) := [("r", "bb")]

/-- An environment whose magic-variable context changes between draws (as the
source's `random` / `time` variables do): the first `getContext` call sees
`r = aa`, every later one `r = bb`. -/
def envVar : Env :=
  { contextAt := fun n _ => if n = 0 then ctxA else ctxB,
    nowAt := fun n => 100 + n,
    uploadResult := fun _ => none, fetchResult := fun _ => none, failPaths := [] }

/-- The folder template `\x7b\x7br\x7d\x7d`. -/
def tmplR : String := String.mk ('\x7b' :: '\x7b' :: ("r".data ++ '\x7d' :: '\x7d' :: []))

def settingsVar : Settings :=
  { isAutoUpload := false, isDeleteTemp := false, tempFolderPath := tmplR,
    tempFileFormat := "f" }

def wInit : World :=
  { fs := { files := [("pics/a.png", .binary [1])], dirs := ["pics"] }, clock := 0,
    uploads := [] }

def c3Mk := DocumentImageManager.mkManager envVar settingsVar "n/a.md" wInit

def c3Add := DocumentImageManager.addImage envVar settingsVar c3Mk.1 "pics/a.png" c3Mk.2

def c3Save := DocumentImageManager.saveToJson envVar c3Add.2.1 c3Add.2.2

def c3Fresh := DocumentImageManager.mkManager envVar settingsVar "n/a.md" c3Save.2

def c3Load := DocumentImageManager.loadFromJson envVar c3Fresh.1 c3Fresh.2

def infoAA : ImageInfo :=
  { localPath := "n/aa/a.png", remotePath := "", isUploaded := false,
    originalName := some "a.png", size := some 1, createTime := some 101,
    modifyTime := some 102 }

def savedFiles : List (String × FileContent) :=
  [("pics/a.png", FileContent.binary [1]),
   ("n/aa/a.png", FileContent.binary [1]),
   ("n/aa/a.json", FileContent.jsonSidecar "n/a.md" [("n/aa/a.png", infoAA)])]

/-- The world after the save: the image and the sidecar sit under `n/aa`. -/
def wSaved : World :=
  { fs := { files := savedFiles, dirs := ["n/aa", "pics"] }, clock := 3, uploads := [] }

end Fix

theorem process_tmplR_A :
    MagicVariableProcessor.process Fix.tmplR Fix.ctxA = "aa" := by
  rw [MagicVariableProcessor.process, if_neg (by decide)]
  rw [show Fix.tmplR.data = '\x7b' :: '\x7b' :: ("r".data ++ '\x7d' :: '\x7d' :: []) from rfl]
  rw [scanTemplate_at_ph Fix.ctxA "r".data (by decide) (by decide) []]
  rw [show Fix.ctxA.lookup (String.mk "r".data) = some "aa" from by decide]
  rw [show scanTemplate Fix.ctxA [] = [] from by rw [scanTemplate]]
  decide

theorem process_tmplR_B :
    MagicVariableProcessor.process Fix.tmplR Fix.ctxB = "bb" := by
  rw [MagicVariableProcessor.process, if_neg (by decide)]
  rw [show Fix.tmplR.data = '\x7b' :: '\x7b' :: ("r".data ++ '\x7d' :: '\x7d' :: []) from rfl]
  rw [scanTemplate_at_ph Fix.ctxB "r".data (by decide) (by decide) []]
  rw [show Fix.ctxB.lookup (String.mk "r".data) = some "bb" from by decide]
  rw [show scanTemplate Fix.ctxB [] = [] from by rw [scanTemplate]]
  decide

theorem c3Mk_eval :
    Fix.c3Mk = ({ mdPath := "n/a.md", imageFolderPath := "n/aa", images := [] },
      { fs := Fix.wInit.fs, clock := 1, uploads := [] }) := by
  rw [Fix.c3Mk]
  simp only [DocumentImageManager.mkManager, DocumentImageManager.getImageFolderPath,
    getContext, Fix.settingsVar]
  rw [show Fix.envVar.contextAt Fix.wInit.clock "n/a.md" = Fix.ctxA from by decide]
  rw [process_tmplR_A]
  decide

theorem c3Save_eval : Fix.c3Save = (true, Fix.wSaved) := by
  rw [Fix.c3Save, Fix.c3Add, c3Mk_eval]
  decide

theorem c3Fresh_eval :
    Fix.c3Fresh = ({ mdPath := "n/a.md", imageFolderPath := "n/bb", images := [] },
      { fs := Fix.wSaved.fs, clock := 4, uploads := [] }) := by
  rw [Fix.c3Fresh, c3Save_eval]
  simp only [DocumentImageManager.mkManager, DocumentImageManager.getImageFolderPath,
    getContext, Fix.settingsVar]
  rw [show Fix.envVar.contextAt Fix.wSaved.clock "n/a.md" = Fix.ctxB from by decide]
  rw [process_tmplR_B]
  decide

/-- C3 counterexample: with the folder template `\x7b\x7br\x7d\x7d` and a context variable
that changes between draws (as `random` / `time` do), a manager built by the
constructor and `addImage` saves under `n/aa`, its `saveToJson` succeeds, but
a fresh manager constructed for the same document path and settings resolves
`n/bb`, finds no sidecar there, and `loadFromJson` leaves its map empty — not
equal to the saved map. -/
theorem C3_roundtrip_counterexample :
    Fix.c3Save.1 = true ∧ Fix.c3Load.2.1.images ≠ Fix.c3Add.2.1.images := by
  constructor
  · rw [c3Save_eval]
  · rw [Fix.c3Load, c3Fresh_eval, Fix.c3Add, c3Mk_eval]
    decide

/-- C3: the round-trip holds once the folder template is stable between the
two constructions (`fresh` resolves the same `mdPath` and `imageFolderPath`)
and the saved map has no duplicate keys: after a successful `saveToJson`,
`loadFromJson` on a fresh manager reading the saved filesystem reproduces an
equal images map (for an empty map the sidecar is gone and the fresh map is
already equal; otherwise the sidecar is parsed back entry by entry). -/
theorem C3_save_load_roundtrip (env : Env) (s fresh : ManagerState) (w w2 : World)
    (hkeys : (Assoc.keys s.images).Nodup)
    (hmd : fresh.mdPath = s.mdPath)
    (hfolder : fresh.imageFolderPath = s.imageFolderPath)
    (hfresh : fresh.images = [])
    (hdirs : w.fs.dirs.contains (DocumentImageManager.getJsonPath s s.imageFolderPath) = false)
    (hok : (DocumentImageManager.saveToJson env s w).1 = true)
    (hfs : w2.fs = (DocumentImageManager.saveToJson env s w).2.fs) :
    (DocumentImageManager.loadFromJson env fresh w2).2.1.images = s.images := by
  have hjp : DocumentImageManager.getJsonPath fresh fresh.imageFolderPath =
      DocumentImageManager.getJsonPath s s.imageFolderPath := by
    rw [DocumentImageManager.getJsonPath, DocumentImageManager.getJsonPath, hmd, hfolder]
  by_cases himg : s.images.length = 0
  · have hnil : s.images = [] := List.length_eq_zero.mp himg
    simp only [DocumentImageManager.saveToJson, if_pos himg] at hok hfs
    split at hok
    · simp at hok
    · rename_i fs1 heq1
      rw [heq1] at hfs
      dsimp only at hfs
      split at hok
      · simp at hok
      · rename_i fs2 heq2
        rw [heq2] at hfs
        dsimp only at hfs
        have hfs1facts :
            fs1.files.lookup (DocumentImageManager.getJsonPath s s.imageFolderPath) = none ∧
            fs1.dirs = w.fs.dirs := by
          by_cases he : Fs.existsPath w.fs (DocumentImageManager.getJsonPath s s.imageFolderPath)
          · rw [if_pos he, Vault.remove] at heq1
            split at heq1
            · cases heq1
            · injection heq1 with heq1
              subst heq1
              exact ⟨Assoc.lookup_erase_self w.fs.files _, rfl⟩
          · rw [if_neg he] at heq1
            injection heq1 with heq1
            subst heq1
            exact ⟨(existsPath_false_parts _ _ (Bool.eq_false_iff.mpr he)).1, rfl⟩
        have hfs2facts :
            fs2.files.lookup (DocumentImageManager.getJsonPath s s.imageFolderPath) = none ∧
            fs2.dirs.contains (DocumentImageManager.getJsonPath s s.imageFolderPath) = false := by
          by_cases he : Fs.existsPath fs1 s.imageFolderPath
          · rw [if_pos he, Vault.rmdirRecursive] at heq2
            split at heq2
            · cases heq2
            · injection heq2 with heq2
              subst heq2
              refine ⟨lookup_filter_none _ _ _ hfs1facts.1, ?_⟩
              apply contains_filter_false
              rw [hfs1facts.2]
              exact hdirs
          · rw [if_neg he] at heq2
            injection heq2 with heq2
            subst heq2
            refine ⟨hfs1facts.1, ?_⟩
            rw [hfs1facts.2]
            exact hdirs
        have hex : Fs.existsPath w2.fs
            (DocumentImageManager.getJsonPath s s.imageFolderPath) = false := by
          rw [hfs, Fs.existsPath, hfs2facts.1, hfs2facts.2]
          rfl
        simp only [DocumentImageManager.loadFromJson]
        rw [hjp, hex]
        simp only [Bool.false_eq_true, if_false]
        rw [hfresh, hnil]
  · simp only [DocumentImageManager.saveToJson, if_neg himg] at hok hfs
    split at hok
    · simp at hok
    · rename_i fs1 heq1
      rw [heq1] at hfs
      dsimp only at hfs
      split at hok
      · simp at hok
      · rename_i fs2 heq2
        rw [heq2] at hfs
        dsimp only at hfs
        rw [Vault.write] at heq2
        split at heq2
        · cases heq2
        · rename_i hcont
          injection heq2 with heq2
          subst heq2
          have hex : Fs.existsPath w2.fs
              (DocumentImageManager.getJsonPath s s.imageFolderPath) = true := by
            rw [hfs]
            exact existsPath_set_files_self fs1 _ _
          have hread : Vault.read env w2.fs
              (DocumentImageManager.getJsonPath s s.imageFolderPath) =
              some (FileContent.jsonSidecar s.mdPath s.images) := by
            rw [hfs, Vault.read, if_neg hcont]
            exact Assoc.lookup_set_self fs1.files _ _
          simp only [DocumentImageManager.loadFromJson]
          rw [hjp, hex, if_pos rfl, hread]
          dsimp only
          exact Assoc.ofList_nodup s.images hkeys

/-- C3 witness: the concrete save of `Fix.sA` (folder `n`, one record) read
back by a fresh manager with the same paths reproduces the map, through the
theorem. -/
theorem C3_save_load_roundtrip_witness :
    (DocumentImageManager.loadFromJson Fix.envPlain
        { mdPath := "n/a.md", imageFolderPath := "n", images := [] }
        (DocumentImageManager.saveToJson Fix.envPlain Fix.sA Fix.wA).2).2.1.images =
      Fix.sA.images :=
  C3_save_load_roundtrip Fix.envPlain Fix.sA
    { mdPath := "n/a.md", imageFolderPath := "n", images := [] }
    Fix.wA (DocumentImageManager.saveToJson Fix.envPlain Fix.sA Fix.wA).2
    (by decide) (by decide) (by decide) rfl (by decide) (by decide) rfl
/-! ### Non-slash character counts (collision-freedom of timestamped names) -/

/-- The number of non-`/` characters; `normalizePath` preserves it. -/
def nonSlashLen (l : List Char) : Nat := (l.filter (fun c => !(c == '/'))).length

theorem nonSlashLen_append (a b : List Char) :
    nonSlashLen (a ++ b) = nonSlashLen a + nonSlashLen b := by
  simp [nonSlashLen, List.filter_append]

theorem splitOnChar_sep_not_mem (sep : Char) :
    ∀ (l : List Char), ∀ s ∈ Path.splitOnChar sep l, sep ∉ s := by
  intro l
  induction l with
  | nil =>
    intro s hs
    simp [Path.splitOnChar] at hs
    simp [hs]
  | cons c rest ih =>
    intro s hs
    simp only [Path.splitOnChar] at hs
    by_cases hc : c = sep
    · rw [if_pos hc] at hs
      rcases List.mem_cons.mp hs with h | h
      · simp [h]
      · exact ih s h
    · rw [if_neg hc] at hs
      cases hsplit : Path.splitOnChar sep rest with
      | nil => exact absurd hsplit (Path.splitOnChar_ne_nil sep rest)
      | cons s0 ss =>
        rw [hsplit] at hs
        rcases List.mem_cons.mp hs with h | h
        · subst h
          intro hmem
          rcases List.mem_cons.mp hmem with h2 | h2
          · exact hc h2.symm
          · exact ih s0 (by rw [hsplit]; exact List.mem_cons_self _ _) h2
        · exact ih s (by rw [hsplit]; exact List.mem_cons_of_mem _ h)

theorem joinSegs_filter (p : Char → Bool) (hp : p '/' = false) :
    ∀ ss : List (List Char),
      (Path.joinSegs '/' ss).filter p = (ss.map (fun s => s.filter p)).flatten := by
  intro ss
  induction ss with
  | nil => simp [Path.joinSegs]
  | cons s rest ih =>
    cases rest with
    | nil => simp [Path.joinSegs]
    | cons r rs =>
      show (s ++ '/' :: Path.joinSegs '/' (r :: rs)).filter p = _
      rw [List.filter_append, List.filter_cons, hp]
      simp only [Bool.false_eq_true, if_false, List.map_cons, List.flatten_cons]
      rw [ih]
      simp only [List.map_cons, List.flatten_cons]

theorem splitOnChar_map_filter_join (p : Char → Bool) (hp : p '/' = false) :
    ∀ l : List Char,
      ((Path.splitOnChar '/' l).map (fun s => s.filter p)).flatten = l.filter p := by
  intro l
  induction l with
  | nil => simp [Path.splitOnChar]
  | cons c rest ih =>
    simp only [Path.splitOnChar]
    by_cases hc : c = '/'
    · rw [if_pos hc]
      simp only [List.map_cons, List.flatten_cons, List.filter_nil, List.nil_append]
      rw [ih, List.filter_cons, hc, hp]
      simp
    · rw [if_neg hc]
      cases hsplit : Path.splitOnChar '/' rest with
      | nil => exact absurd hsplit (Path.splitOnChar_ne_nil '/' rest)
      | cons s0 ss =>
        rw [hsplit] at ih
        simp only [List.map_cons, List.flatten_cons] at ih ⊢
        rw [List.filter_cons, List.filter_cons]
        cases hpc : p c with
        | true => simp [ih]
        | false => simp [ih]

theorem filter_empty_segs_join (p : Char → Bool) :
    ∀ ss : List (List Char),
      ((ss.filter (fun s => !s.isEmpty)).map (fun s => s.filter p)).flatten =
        (ss.map (fun s => s.filter p)).flatten := by
  intro ss
  induction ss with
  | nil => simp
  | cons s rest ih =>
    cases s with
    | nil => simpa using ih
    | cons c cs =>
      simp only [List.filter_cons, List.isEmpty_cons, Bool.not_false, if_true]
      simp only [List.map_cons, List.flatten_cons, ih]

theorem nonSlashLen_normalizePath (x : String) :
    nonSlashLen (Path.normalizePath x).data = nonSlashLen x.data := by
  show nonSlashLen (Path.joinSegs '/'
    ((Path.splitOnChar '/' x.data).filter (fun s => !s.isEmpty))) = nonSlashLen x.data
  unfold nonSlashLen
  rw [joinSegs_filter _ rfl, filter_empty_segs_join, splitOnChar_map_filter_join _ rfl]
theorem natToChars_ne_nil (n : Nat) : Path.natToChars n ≠ [] := by
  unfold Path.natToChars Path.natToCharsAux
  split
  · simp
  · simp

theorem nonSlashLen_eq_length (l : List Char) (h : ∀ c ∈ l, c ≠ '/') :
    nonSlashLen l = l.length := by
  unfold nonSlashLen
  rw [List.filter_eq_self.mpr]
  intro c hc
  simpa using h c hc

theorem data_append (a b : String) : (a ++ b).data = a.data ++ b.data :=
  String.data_append a b

theorem nonSlashLen_join (a b : String) :
    nonSlashLen (Path.join a b).data = nonSlashLen a.data + nonSlashLen b.data := by
  unfold Path.join
  have hslash : nonSlashLen "/".data = 0 := by decide
  have hempty : nonSlashLen "".data = 0 := by decide
  by_cases ha : a = ""
  · rw [if_pos ha, ha, hempty]
    omega
  · rw [if_neg ha]
    by_cases hb : b = ""
    · rw [if_pos hb, hb, hempty]
      omega
    · rw [if_neg hb, data_append, data_append, nonSlashLen_append, nonSlashLen_append,
        hslash]
      omega

theorem lastDotSplit_data (s : String) :
    (Path.lastDotSplit s).1.data ++ (Path.lastDotSplit s).2.data = s.data := by
  unfold Path.lastDotSplit
  split
  · rfl
  · exact List.take_append_drop _ _

/-- `addImage`'s destination for a fresh filename: the original basename in the
asset folder (`copyImageToFolder`, the no-collision branch). -/
def addTarget (s : ManagerState) (src : String) : String :=
  Path.normalizePath (Path.join s.imageFolderPath (Path.basename src))

/-- `addImage`'s destination on a name collision: the timestamp is inserted
before the extension (`copyImageToFolder`, the collision branch). -/
def addTargetTs (s : ManagerState) (src : String) (t : Nat) : String :=
  Path.normalizePath (Path.join s.imageFolderPath
    ((Path.lastDotSplit (Path.basename src)).1 ++ "_" ++ String.mk (Path.natToChars t) ++
      (Path.lastDotSplit (Path.basename src)).2))

theorem addTargetTs_ne_addTarget (s : ManagerState) (src : String) (t : Nat) :
    addTargetTs s src t ≠ addTarget s src := by
  intro h
  have hd : nonSlashLen (addTargetTs s src t).data = nonSlashLen (addTarget s src).data := by
    rw [h]
  unfold addTarget addTargetTs at hd
  rw [nonSlashLen_normalizePath, nonSlashLen_normalizePath, nonSlashLen_join,
    nonSlashLen_join] at hd
  rw [data_append, data_append, data_append] at hd
  rw [nonSlashLen_append, nonSlashLen_append, nonSlashLen_append] at hd
  have hts : nonSlashLen (String.mk (Path.natToChars t)).data =
      (Path.natToChars t).length := by
    exact nonSlashLen_eq_length _ (Path.natToChars_ne_slash t)
  rw [hts] at hd
  have hne : nonSlashLen (Path.lastDotSplit (Path.basename src)).1.data +
      nonSlashLen (Path.lastDotSplit (Path.basename src)).2.data =
      nonSlashLen (Path.basename src).data := by
    rw [← nonSlashLen_append, lastDotSplit_data]
  have hpos : 0 < (Path.natToChars t).length :=
    List.length_pos.mpr (natToChars_ne_nil t)
  omega
theorem getLastD_mem_cons {α : Type} :
    ∀ (l : List α) (a : α), l.getLastD a ∈ a :: l := by
  intro l
  induction l with
  | nil =>
    intro a
    simp
  | cons b t ih =>
    intro a
    rw [List.getLastD_cons]
    exact List.mem_cons_of_mem a (ih b)

theorem basename_no_slash (src : String) : ∀ c ∈ (Path.basename src).data, c ≠ '/' := by
  unfold Path.basename
  intro c hc
  cases hsplit : Path.splitOnChar '/' src.data with
  | nil => exact absurd hsplit (Path.splitOnChar_ne_nil '/' src.data)
  | cons s0 ss =>
    rw [hsplit] at hc
    have hmem : (s0 :: ss).getLastD [] ∈ s0 :: ss := by
      rw [List.getLastD_cons]
      exact getLastD_mem_cons ss s0
    have hseg := splitOnChar_sep_not_mem '/' src.data ((s0 :: ss).getLastD []) (by
      rw [hsplit]; exact hmem)
    intro he
    subst he
    exact hseg hc

theorem addTarget_ne_folder (s : ManagerState) (src : String)
    (hname : Path.basename src ≠ "") : addTarget s src ≠ s.imageFolderPath := by
  intro h
  have hd : nonSlashLen (addTarget s src).data = nonSlashLen s.imageFolderPath.data := by
    rw [h]
  unfold addTarget at hd
  rw [nonSlashLen_normalizePath, nonSlashLen_join] at hd
  have hlen : nonSlashLen (Path.basename src).data = (Path.basename src).data.length :=
    nonSlashLen_eq_length _ (basename_no_slash src)
  have hpos : 0 < (Path.basename src).data.length := by
    cases hdata : (Path.basename src).data with
    | nil =>
      exfalso
      apply hname
      have : Path.basename src = String.mk (Path.basename src).data := rfl
      rw [this, hdata]
    | cons c t => simp
  omega

/-! ### Filesystem growth (no manager write removes what was there) -/

/-- `fs'` keeps every file key and directory of `fs`. -/
def FsExtends (fs fs' : Fs) : Prop :=
  (∀ q, (fs.files.lookup q).isSome = true → (fs'.files.lookup q).isSome = true) ∧
  (∀ d, fs.dirs.contains d = true → fs'.dirs.contains d = true)

theorem fsExtends_refl (fs : Fs) : FsExtends fs fs :=
  ⟨fun _ h => h, fun _ h => h⟩

theorem fsExtends_trans {a b c : Fs} (h1 : FsExtends a b) (h2 : FsExtends b c) :
    FsExtends a c :=
  ⟨fun q h => h2.1 q (h1.1 q h), fun d h => h2.2 d (h1.2 d h)⟩

theorem lookup_set_isSome {α : Type} (m : List (String × α)) (k : String) (v : α)
    (q : String) (h : (m.lookup q).isSome = true) :
    ((Assoc.set m k v).lookup q).isSome = true := by
  by_cases hq : q = k
  · subst hq
    rw [Assoc.lookup_set_self]
    rfl
  · rw [Assoc.lookup_set_ne m k q v hq]
    exact h

theorem fsExtends_set (fs : Fs) (p : String) (c : FileContent) :
    FsExtends fs { fs with files := Assoc.set fs.files p c } :=
  ⟨fun q h => lookup_set_isSome fs.files p c q h, fun _ h => h⟩

theorem fsExtends_mkdirCons (fs : Fs) (p : String) :
    FsExtends fs { fs with dirs := p :: fs.dirs } := by
  refine ⟨fun _ h => h, fun d h => ?_⟩
  rw [List.contains_cons]
  rw [h]
  simp

theorem fsExtends_existsPath {fs fs' : Fs} (h : FsExtends fs fs') (q : String)
    (he : Fs.existsPath fs q = true) : Fs.existsPath fs' q = true := by
  rw [Fs.existsPath] at he ⊢
  rcases Bool.or_eq_true_iff.mp he with h1 | h1
  · rw [h.1 q h1]
    simp
  · rw [h.2 q h1]
    simp

theorem set_length_pos {α : Type} (m : List (String × α)) (k : String) (v : α) :
    0 < (Assoc.set m k v).length := by
  unfold Assoc.set
  split
  · rename_i h
    rw [List.length_map]
    cases m with
    | nil => simp [List.lookup] at h
    | cons kv t => simp
  · simp

theorem set_length_ne_zero {α : Type} (m : List (String × α)) (k : String) (v : α) :
    ¬ (Assoc.set m k v).length = 0 := by
  have := set_length_pos m k v
  omega

theorem lookup_set_self_isSome {α : Type} (m : List (String × α)) (k : String) (v : α) :
    ((Assoc.set m k v).lookup k).isSome = true := by
  rw [Assoc.lookup_set_self]
  rfl
theorem saveToJson_extends (env : Env) (s : ManagerState) (w : World)
    (hne : ¬ s.images.length = 0) :
    FsExtends w.fs (DocumentImageManager.saveToJson env s w).2.fs := by
  simp only [DocumentImageManager.saveToJson, if_neg hne]
  split
  · exact fsExtends_refl _
  · rename_i fs1 heq1
    have h1 : FsExtends w.fs fs1 := by
      by_cases he : Fs.existsPath w.fs s.imageFolderPath
      · rw [if_neg (by simp [he])] at heq1
        injection heq1 with heq1
        subst heq1
        exact fsExtends_refl _
      · rw [if_pos (by simp [he]), Vault.mkdir] at heq1
        split at heq1
        · cases heq1
        · injection heq1 with heq1
          subst heq1
          exact fsExtends_mkdirCons w.fs s.imageFolderPath
    split
    · exact h1
    · rename_i fs2 heq2
      rw [Vault.write] at heq2
      split at heq2
      · cases heq2
      · injection heq2 with heq2
        subst heq2
        exact fsExtends_trans h1 (fsExtends_set fs1 _ _)

theorem uploadImage_facts (env : Env) (settings : Settings) (s : ManagerState) (lp : String)
    (w : World) (hdel : settings.isDeleteTemp = false) :
    (DocumentImageManager.uploadImage env settings s lp w).2.1.mdPath = s.mdPath ∧
    (DocumentImageManager.uploadImage env settings s lp w).2.1.imageFolderPath =
      s.imageFolderPath ∧
    ((s.images.lookup lp).isSome = true →
      ((DocumentImageManager.uploadImage env settings s lp w).2.1.images.lookup lp).isSome =
        true) ∧
    (∀ q, q ≠ lp →
      (DocumentImageManager.uploadImage env settings s lp w).2.1.images.lookup q =
        s.images.lookup q) ∧
    FsExtends w.fs (DocumentImageManager.uploadImage env settings s lp w).2.2.fs := by
  simp only [DocumentImageManager.uploadImage]
  split
  · exact ⟨rfl, rfl, fun h => h, fun _ _ => rfl, fsExtends_refl _⟩
  · rename_i info heq
    split
    · exact ⟨rfl, rfl, fun h => h, fun _ _ => rfl, fsExtends_refl _⟩
    · split
      · exact ⟨rfl, rfl, fun h => h, fun _ _ => rfl, fsExtends_refl _⟩
      · rename_i result heq2
        split
        · simp only [drawNow]
          rw [hdel]
          simp only [Bool.false_and, Bool.false_eq_true, if_false]
          refine ⟨by trivial, by trivial, fun _ => ?_, fun q hq => ?_, ?_⟩
          · rw [Assoc.lookup_set_self]
            rfl
          · exact Assoc.lookup_set_ne s.images lp q _ hq
          · exact saveToJson_extends env _
              { w with uploads := w.uploads ++ [lp], clock := w.clock + 1 }
              (set_length_ne_zero _ _ _)
        · exact ⟨rfl, rfl, fun h => h, fun _ _ => rfl, fsExtends_refl _⟩
theorem copyImageToFolder_free (env : Env) (s : ManagerState) (src : String) (w : World)
    (hfail : env.failPaths = [])
    (hfree : Fs.existsPath w.fs (addTarget s src) = false)
    (htne : addTarget s src ≠ s.imageFolderPath)
    (hsrc : (w.fs.files.lookup src).isSome = true) :
    (DocumentImageManager.copyImageToFolder env s src w).1 = some (addTarget s src) ∧
    FsExtends w.fs (DocumentImageManager.copyImageToFolder env s src w).2.fs ∧
    ((DocumentImageManager.copyImageToFolder env s src w).2.fs.files.lookup
      (addTarget s src)).isSome = true := by
  obtain ⟨content, hcontent⟩ := Option.isSome_iff_exists.mp hsrc
  simp only [addTarget] at hfree htne ⊢
  simp only [DocumentImageManager.copyImageToFolder]
  split
  · rename_i heq1
    exfalso
    by_cases he : Fs.existsPath w.fs s.imageFolderPath
    · rw [if_neg (by simp [he])] at heq1
      cases heq1
    · rw [if_pos (by simp [he]), Vault.mkdir, hfail] at heq1
      rw [if_neg (by simp)] at heq1
      cases heq1
  · rename_i fs1 heq1
    have hfs1 : fs1.files = w.fs.files ∧ FsExtends w.fs fs1 ∧
        (fs1.dirs = w.fs.dirs ∨ fs1.dirs = s.imageFolderPath :: w.fs.dirs) := by
      by_cases he : Fs.existsPath w.fs s.imageFolderPath
      · rw [if_neg (by simp [he])] at heq1
        injection heq1 with heq1
        subst heq1
        exact ⟨rfl, fsExtends_refl _, Or.inl rfl⟩
      · rw [if_pos (by simp [he]), Vault.mkdir, hfail] at heq1
        rw [if_neg (by simp)] at heq1
        injection heq1 with heq1
        subst heq1
        exact ⟨rfl, fsExtends_mkdirCons _ _, Or.inr rfl⟩
    have hparts := existsPath_false_parts w.fs
      (Path.normalizePath (Path.join s.imageFolderPath (Path.basename src))) hfree
    have hex1 : Fs.existsPath fs1
        (Path.normalizePath (Path.join s.imageFolderPath (Path.basename src))) = false := by
      rw [Fs.existsPath, hfs1.1, hparts.1]
      rcases hfs1.2.2 with hd | hd
      · rw [hd, hparts.2]
        rfl
      · rw [hd, List.contains_cons, hparts.2]
        have hb : (Path.normalizePath (Path.join s.imageFolderPath (Path.basename src)) ==
            s.imageFolderPath) = false := by
          simp [htne]
        rw [hb]
        rfl
    rw [hex1]
    simp only [Bool.false_eq_true, if_false]
    have hlook : fs1.files.lookup src = some content := by
      rw [hfs1.1]
      exact hcontent
    rw [Vault.readBinary, hfail]
    rw [if_neg (by simp), hlook]
    dsimp only
    rw [Vault.writeBinary, hfail]
    rw [if_neg (by simp)]
    dsimp only
    refine ⟨rfl, ?_, ?_⟩
    · exact fsExtends_trans hfs1.2.1 (fsExtends_set fs1 _ _)
    · rw [Assoc.lookup_set_self]
      rfl

theorem copyImageToFolder_collide (env : Env) (s : ManagerState) (src : String) (w : World)
    (hfail : env.failPaths = [])
    (hex : Fs.existsPath w.fs (addTarget s src) = true)
    (hsrc : (w.fs.files.lookup src).isSome = true) :
    (DocumentImageManager.copyImageToFolder env s src w).1 =
      some (addTargetTs s src (env.nowAt w.clock)) ∧
    FsExtends w.fs (DocumentImageManager.copyImageToFolder env s src w).2.fs ∧
    ((DocumentImageManager.copyImageToFolder env s src w).2.fs.files.lookup
      (addTargetTs s src (env.nowAt w.clock))).isSome = true := by
  obtain ⟨content, hcontent⟩ := Option.isSome_iff_exists.mp hsrc
  simp only [addTarget] at hex
  simp only [addTargetTs]
  simp only [DocumentImageManager.copyImageToFolder]
  split
  · rename_i heq1
    exfalso
    by_cases he : Fs.existsPath w.fs s.imageFolderPath
    · rw [if_neg (by simp [he])] at heq1
      cases heq1
    · rw [if_pos (by simp [he]), Vault.mkdir, hfail] at heq1
      rw [if_neg (by simp)] at heq1
      cases heq1
  · rename_i fs1 heq1
    have hfs1 : fs1.files = w.fs.files ∧ FsExtends w.fs fs1 := by
      by_cases he : Fs.existsPath w.fs s.imageFolderPath
      · rw [if_neg (by simp [he])] at heq1
        injection heq1 with heq1
        subst heq1
        exact ⟨rfl, fsExtends_refl _⟩
      · rw [if_pos (by simp [he]), Vault.mkdir, hfail] at heq1
        rw [if_neg (by simp)] at heq1
        injection heq1 with heq1
        subst heq1
        exact ⟨rfl, fsExtends_mkdirCons _ _⟩
    have hex1 : Fs.existsPath fs1
        (Path.normalizePath (Path.join s.imageFolderPath (Path.basename src))) = true :=
      fsExtends_existsPath hfs1.2 _ hex
    rw [hex1, if_pos rfl]
    simp only [drawNow]
    have hlook : fs1.files.lookup src = some content := by
      rw [hfs1.1]
      exact hcontent
    rw [Vault.readBinary, hfail]
    rw [if_neg (by simp), hlook]
    dsimp only
    rw [Vault.writeBinary, hfail]
    rw [if_neg (by simp)]
    dsimp only
    refine ⟨rfl, ?_, ?_⟩
    · exact fsExtends_trans hfs1.2 (fsExtends_set fs1 _ _)
    · rw [Assoc.lookup_set_self]
      rfl
theorem addImage_facts (env : Env) (settings : Settings) (s : ManagerState) (src tp : String)
    (w : World) (hdel : settings.isDeleteTemp = false)
    (hc1 : (DocumentImageManager.copyImageToFolder env s src w).1 = some tp)
    (hc2 : FsExtends w.fs (DocumentImageManager.copyImageToFolder env s src w).2.fs)
    (hc3 : ((DocumentImageManager.copyImageToFolder env s src w).2.fs.files.lookup
      tp).isSome = true) :
    (DocumentImageManager.addImage env settings s src w).1.isSome = true ∧
    (DocumentImageManager.addImage env settings s src w).2.1.mdPath = s.mdPath ∧
    (DocumentImageManager.addImage env settings s src w).2.1.imageFolderPath =
      s.imageFolderPath ∧
    ((DocumentImageManager.addImage env settings s src w).2.1.images.lookup tp).isSome =
      true ∧
    (∀ q, q ≠ tp →
      (DocumentImageManager.addImage env settings s src w).2.1.images.lookup q =
        s.images.lookup q) ∧
    ((DocumentImageManager.addImage env settings s src w).2.2.fs.files.lookup tp).isSome =
      true ∧
    FsExtends w.fs (DocumentImageManager.addImage env settings s src w).2.2.fs := by
  simp only [DocumentImageManager.addImage]
  split
  · rename_i w1 heq
    rw [heq] at hc1
    exact absurd hc1 (by simp)
  · rename_i targetPath w1 heq
    rw [heq] at hc1 hc2 hc3
    dsimp only at hc1 hc2 hc3
    injection hc1 with htp
    subst htp
    simp only [drawNow]
    split
    · split
      · rename_i s2 w5 heqU
        have hs2 := congrArg (fun x => x.2.1) heqU
        have hw5 := congrArg (fun x => x.2.2) heqU
        dsimp only at hs2 hw5
        rw [← hs2, ← hw5]
        refine ⟨rfl, ?_, ?_, ?_, fun q hq => ?_, ?_, ?_⟩
        · exact ((uploadImage_facts env settings _ _ _ hdel).1).trans rfl
        · exact ((uploadImage_facts env settings _ _ _ hdel).2.1).trans rfl
        · exact (uploadImage_facts env settings _ _ _ hdel).2.2.1
            (lookup_set_self_isSome s.images targetPath _)
        · exact ((uploadImage_facts env settings _ _ _ hdel).2.2.2.1 q hq).trans
            (Assoc.lookup_set_ne s.images targetPath q _ hq)
        · refine ((uploadImage_facts env settings _ _ _ hdel).2.2.2.2).1 targetPath ?_
          refine (saveToJson_extends env _ _ ?hne1).1 targetPath ?hfile1
          case hne1 => exact set_length_ne_zero _ _ _
          case hfile1 => exact hc3
        · refine fsExtends_trans ?_ ((uploadImage_facts env settings _ _ _ hdel).2.2.2.2)
          refine fsExtends_trans ?_
            (saveToJson_extends env _ _ (set_length_ne_zero _ _ _))
          exact hc2
      · rename_i s2 w5 heqU
        have hs2 := congrArg (fun x => x.2.1) heqU
        have hw5 := congrArg (fun x => x.2.2) heqU
        dsimp only at hs2 hw5
        rw [← hs2, ← hw5]
        refine ⟨rfl, ?_, ?_, ?_, fun q hq => ?_, ?_, ?_⟩
        · exact ((uploadImage_facts env settings _ _ _ hdel).1).trans rfl
        · exact ((uploadImage_facts env settings _ _ _ hdel).2.1).trans rfl
        · exact (uploadImage_facts env settings _ _ _ hdel).2.2.1
            (lookup_set_self_isSome s.images targetPath _)
        · exact ((uploadImage_facts env settings _ _ _ hdel).2.2.2.1 q hq).trans
            (Assoc.lookup_set_ne s.images targetPath q _ hq)
        · refine ((uploadImage_facts env settings _ _ _ hdel).2.2.2.2).1 targetPath ?_
          refine (saveToJson_extends env _ _ ?hne1).1 targetPath ?hfile1
          case hne1 => exact set_length_ne_zero _ _ _
          case hfile1 => exact hc3
        · refine fsExtends_trans ?_ ((uploadImage_facts env settings _ _ _ hdel).2.2.2.2)
          refine fsExtends_trans ?_
            (saveToJson_extends env _ _ (set_length_ne_zero _ _ _))
          exact hc2
    · refine ⟨rfl, by trivial, by trivial, ?_, fun q hq => ?_, ?_, ?_⟩
      · exact lookup_set_self_isSome s.images targetPath _
      · exact Assoc.lookup_set_ne s.images targetPath q _ hq
      · refine (saveToJson_extends env _ _ ?hne3).1 targetPath ?hfile3
        case hne3 => exact set_length_ne_zero _ _ _
        case hfile3 => exact hc3
      · refine fsExtends_trans ?_
          (saveToJson_extends env _ _ (set_length_ne_zero _ _ _))
        exact hc2
/-- C5: with `isDeleteTemp` off (so the first copy is still on disk) and a
working adapter, two `addImage` calls whose sources share a base name insert
records under distinct keys: the first under the plain name in the asset
folder, the second under a name with a timestamp inserted before the
extension; the first record is left untouched by the second call. -/
theorem C5_addImage_distinct_keys (env : Env) (settings : Settings) (s : ManagerState)
    (src1 src2 : String) (w : World)
    (hfail : env.failPaths = [])
    (hdel : settings.isDeleteTemp = false)
    (hbase : Path.basename src2 = Path.basename src1)
    (hname : Path.basename src1 ≠ "")
    (hfree : Fs.existsPath w.fs (addTarget s src1) = false)
    (hsrc1 : (w.fs.files.lookup src1).isSome = true)
    (hsrc2 : (w.fs.files.lookup src2).isSome = true) :
    ((DocumentImageManager.addImage env settings s src1 w).2.1.images.lookup
      (addTarget s src1)).isSome = true ∧
    (DocumentImageManager.addImage env settings
      (DocumentImageManager.addImage env settings s src1 w).2.1 src2
      (DocumentImageManager.addImage env settings s src1 w).2.2).1.isSome = true ∧
    (DocumentImageManager.addImage env settings
        (DocumentImageManager.addImage env settings s src1 w).2.1 src2
        (DocumentImageManager.addImage env settings s src1 w).2.2).2.1.images.lookup
      (addTarget s src1) =
      (DocumentImageManager.addImage env settings s src1 w).2.1.images.lookup
        (addTarget s src1) ∧
    ∃ t, addTargetTs s src1 t ≠ addTarget s src1 ∧
      ((DocumentImageManager.addImage env settings
          (DocumentImageManager.addImage env settings s src1 w).2.1 src2
          (DocumentImageManager.addImage env settings s src1 w).2.2).2.1.images.lookup
        (addTargetTs s src1 t)).isSome = true := by
  have htne := addTarget_ne_folder s src1 hname
  have hc := copyImageToFolder_free env s src1 w hfail hfree htne hsrc1
  have F1 := addImage_facts env settings s src1 (addTarget s src1) w hdel hc.1 hc.2.1 hc.2.2
  have hfold : (DocumentImageManager.addImage env settings s src1 w).2.1.imageFolderPath =
      s.imageFolderPath := F1.2.2.1
  have hT2 : addTarget (DocumentImageManager.addImage env settings s src1 w).2.1 src2 =
      addTarget s src1 := by
    unfold addTarget
    rw [hfold, hbase]
  have hTs2 : ∀ t, addTargetTs (DocumentImageManager.addImage env settings s src1 w).2.1
      src2 t = addTargetTs s src1 t := by
    intro t
    unfold addTargetTs
    rw [hfold, hbase]
  have hex2 : Fs.existsPath (DocumentImageManager.addImage env settings s src1 w).2.2.fs
      (addTarget (DocumentImageManager.addImage env settings s src1 w).2.1 src2) = true := by
    rw [hT2, Fs.existsPath, F1.2.2.2.2.2.1]
    simp
  have hsrc2w : ((DocumentImageManager.addImage env settings s src1 w).2.2.fs.files.lookup
      src2).isSome = true := F1.2.2.2.2.2.2.1 src2 hsrc2
  have hc2 := copyImageToFolder_collide env
    (DocumentImageManager.addImage env settings s src1 w).2.1 src2
    (DocumentImageManager.addImage env settings s src1 w).2.2 hfail hex2 hsrc2w
  have F2 := addImage_facts env settings
    (DocumentImageManager.addImage env settings s src1 w).2.1 src2
    (addTargetTs (DocumentImageManager.addImage env settings s src1 w).2.1 src2
      (env.nowAt (DocumentImageManager.addImage env settings s src1 w).2.2.clock))
    (DocumentImageManager.addImage env settings s src1 w).2.2 hdel hc2.1 hc2.2.1 hc2.2.2
  rw [hTs2] at F2
  refine ⟨F1.2.2.2.1, F2.1, ?_, ?_⟩
  · have hne : addTarget s src1 ≠ addTargetTs s src1
        (env.nowAt (DocumentImageManager.addImage env settings s src1 w).2.2.clock) :=
      fun h => (addTargetTs_ne_addTarget s src1 _) h.symm
    exact F2.2.2.2.2.1 (addTarget s src1) hne
  · exact ⟨env.nowAt (DocumentImageManager.addImage env settings s src1 w).2.2.clock,
      addTargetTs_ne_addTarget s src1 _, F2.2.2.2.1⟩
namespace Fix

/-- Auto-upload with temp-file deletion switched on. -/
def settingsAuto : Settings :=
  { isAutoUpload := true, isDeleteTemp := true, tempFolderPath := "", tempFileFormat := "f" }

/-- An uploader that accepts `n/a.png` and returns one URL. -/
def envUp : Env :=
  { contextAt := fun _ _ => [], nowAt := fun n => 100 + n,
    uploadResult := fun p => if p = "n/a.png" then some "https://u/a.png" else none,
    fetchResult := fun _ => none, failPaths := [] }

def c5s0 : ManagerState := { mdPath := "n/a.md", imageFolderPath := "n", images := [] }

def c5w0 : World :=
  { fs := { files := [("pics/a.png", .binary [1])], dirs := ["n", "pics"] }, clock := 0,
    uploads := [] }

def c5A1 := DocumentImageManager.addImage envUp settingsAuto c5s0 "pics/a.png" c5w0

def c5A2 := DocumentImageManager.addImage envUp settingsAuto c5A1.2.1 "pics/a.png" c5A1.2.2

end Fix

/-- C5 counterexample: with auto-upload and `isDeleteTemp` on, adding the same
source file twice reuses the key `n/a.png`: the first add uploads and deletes
the copied file, so the second add sees no collision, copies to the same name
and replaces the first record — after two successful adds the map holds one
record, not two with distinct keys. -/
theorem C5_addImage_key_reuse_counterexample :
    Fix.c5A1.1.isSome = true ∧ Fix.c5A2.1.isSome = true ∧
    Assoc.keys Fix.c5A1.2.1.images = ["n/a.png"] ∧
    Assoc.keys Fix.c5A2.2.1.images = ["n/a.png"] ∧
    Fix.c5A2.2.1.images.lookup "n/a.png" ≠ Fix.c5A1.2.1.images.lookup "n/a.png" := by
  decide

/-- C5 witness: two adds of `pics/a.png` with `isDeleteTemp` off, through the
theorem: the first record sits at `n/a.png`, is untouched by the second add,
and the second record's key is a timestamped name distinct from it. -/
theorem C5_addImage_distinct_keys_witness :
    ((DocumentImageManager.addImage Fix.envPlain Fix.settingsPlain Fix.c5s0 "pics/a.png"
      Fix.c5w0).2.1.images.lookup (addTarget Fix.c5s0 "pics/a.png")).isSome = true ∧
    (DocumentImageManager.addImage Fix.envPlain Fix.settingsPlain
      (DocumentImageManager.addImage Fix.envPlain Fix.settingsPlain Fix.c5s0 "pics/a.png"
        Fix.c5w0).2.1 "pics/a.png"
      (DocumentImageManager.addImage Fix.envPlain Fix.settingsPlain Fix.c5s0 "pics/a.png"
        Fix.c5w0).2.2).1.isSome = true ∧
    (DocumentImageManager.addImage Fix.envPlain Fix.settingsPlain
        (DocumentImageManager.addImage Fix.envPlain Fix.settingsPlain Fix.c5s0 "pics/a.png"
          Fix.c5w0).2.1 "pics/a.png"
        (DocumentImageManager.addImage Fix.envPlain Fix.settingsPlain Fix.c5s0 "pics/a.png"
          Fix.c5w0).2.2).2.1.images.lookup (addTarget Fix.c5s0 "pics/a.png") =
      (DocumentImageManager.addImage Fix.envPlain Fix.settingsPlain Fix.c5s0 "pics/a.png"
        Fix.c5w0).2.1.images.lookup (addTarget Fix.c5s0 "pics/a.png") ∧
    ∃ t, addTargetTs Fix.c5s0 "pics/a.png" t ≠ addTarget Fix.c5s0 "pics/a.png" ∧
      ((DocumentImageManager.addImage Fix.envPlain Fix.settingsPlain
          (DocumentImageManager.addImage Fix.envPlain Fix.settingsPlain Fix.c5s0
            "pics/a.png" Fix.c5w0).2.1 "pics/a.png"
          (DocumentImageManager.addImage Fix.envPlain Fix.settingsPlain Fix.c5s0
            "pics/a.png" Fix.c5w0).2.2).2.1.images.lookup
        (addTargetTs Fix.c5s0 "pics/a.png" t)).isSome = true :=
  C5_addImage_distinct_keys Fix.envPlain Fix.settingsPlain Fix.c5s0 "pics/a.png"
    "pics/a.png" Fix.c5w0 rfl (by decide) rfl (by decide) (by decide) (by decide) (by decide)
theorem saveToJson_frame (env : Env) (s : ManagerState) (w : World) :
    (DocumentImageManager.saveToJson env s w).2.uploads = w.uploads ∧
    (DocumentImageManager.saveToJson env s w).2.clock = w.clock := by
  simp only [DocumentImageManager.saveToJson]
  split
  all_goals split
  all_goals try exact ⟨rfl, rfl⟩
  all_goals split
  all_goals exact ⟨rfl, rfl⟩

theorem uploadImage_attempt (env : Env) (settings : Settings) (s : ManagerState)
    (lp : String) (w : World) (info : ImageInfo)
    (hfail : env.failPaths = [])
    (h1 : s.images.lookup lp = some info) (h2 : info.isUploaded = false) :
    (DocumentImageManager.uploadImage env settings s lp w).2.2.uploads =
      w.uploads ++ [lp] ∧
    (DocumentImageManager.uploadImage env settings s lp w).1 =
      (env.uploadResult lp).isSome ∧
    (∀ q, q ≠ lp →
      (DocumentImageManager.uploadImage env settings s lp w).2.1.images.lookup q =
        s.images.lookup q) := by
  simp only [DocumentImageManager.uploadImage]
  rw [h1]
  dsimp only
  rw [h2]
  simp only [Bool.false_eq_true, if_false]
  cases hres : env.uploadResult lp with
  | none =>
    exact ⟨rfl, rfl, fun q hq => rfl⟩
  | some result =>
    dsimp only
    have hpos : (Path.splitOnChar ',' result.data).length > 0 :=
      List.length_pos.mpr (Path.splitOnChar_ne_nil ',' result.data)
    rw [if_pos hpos]
    simp only [drawNow]
    split
    · rw [Vault.remove, hfail]
      rw [if_neg (by simp)]
      refine ⟨((saveToJson_frame env _ _).1).trans rfl, rfl,
        fun q hq => Assoc.lookup_set_ne s.images lp q _ hq⟩
    · refine ⟨((saveToJson_frame env _ _).1).trans rfl, rfl,
        fun q hq => Assoc.lookup_set_ne s.images lp q _ hq⟩

theorem filterMap_congr_mem {α β : Type} (l : List α) (f g : α → Option β)
    (h : ∀ a ∈ l, f a = g a) : l.filterMap f = l.filterMap g := by
  induction l with
  | nil => rfl
  | cons a t ih =>
    rw [List.filterMap_cons, List.filterMap_cons, h a (List.mem_cons_self a t),
      ih (fun x hx => h x (List.mem_cons_of_mem a hx))]

theorem all_congr_mem {α : Type} (l : List α) (f g : α → Bool)
    (h : ∀ a ∈ l, f a = g a) : l.all f = l.all g := by
  induction l with
  | nil => rfl
  | cons a t ih =>
    rw [List.all_cons, List.all_cons, h a (List.mem_cons_self a t),
      ih (fun x hx => h x (List.mem_cons_of_mem a hx))]
theorem uploadAllGo_spec (env : Env) (settings : Settings) (hfail : env.failPaths = []) :
    ∀ (ks : List String) (acc : Bool) (s : ManagerState) (w : World), ks.Nodup →
    (DocumentImageManager.uploadAllGo env settings ks acc s w).2.2.uploads =
      w.uploads ++ ks.filterMap (fun k => match s.images.lookup k with
        | some info => if !info.isUploaded then some k else none
        | none => none) ∧
    (DocumentImageManager.uploadAllGo env settings ks acc s w).1 =
      (acc && ks.all (fun k => match s.images.lookup k with
        | some info => if !info.isUploaded then (env.uploadResult k).isSome else true
        | none => true)) := by
  intro ks
  induction ks with
  | nil =>
    intro acc s w _
    simp [DocumentImageManager.uploadAllGo]
  | cons k ks ih =>
    intro acc s w hnd
    rw [DocumentImageManager.uploadAllGo]
    cases hlk : s.images.lookup k with
    | none =>
      dsimp only
      have IH := ih acc s w (List.Nodup.of_cons hnd)
      simp only [List.filterMap_cons, List.all_cons, hlk, Bool.true_and]
      exact ⟨IH.1, IH.2⟩
    | some info =>
      dsimp only
      cases hup : info.isUploaded with
      | true =>
        simp only [hup, Bool.not_true, Bool.false_eq_true, if_false]
        have IH := ih acc s w (List.Nodup.of_cons hnd)
        simp only [List.filterMap_cons, List.all_cons, hlk, hup, Bool.not_true,
          Bool.false_eq_true, if_false, Bool.true_and]
        exact ⟨IH.1, IH.2⟩
      | false =>
        simp only [hup, Bool.not_false, if_true]
        have U := uploadImage_attempt env settings s k w info hfail hlk hup
        rcases hU : DocumentImageManager.uploadImage env settings s k w with ⟨succ, s1, w1⟩
        rw [hU] at U
        dsimp only at U ⊢
        have IH := ih (acc && succ) s1 w1 (List.Nodup.of_cons hnd)
        have hqk : ∀ q ∈ ks, q ≠ k :=
          fun q hq he => (List.nodup_cons.mp hnd).1 (he ▸ hq)
        constructor
        · rw [IH.1, U.1]
          have hcg : ∀ q ∈ ks,
              (fun k2 => match s1.images.lookup k2 with
                | some info => if !info.isUploaded then some k2 else none
                | none => none) q =
              (fun k2 => match s.images.lookup k2 with
                | some info => if !info.isUploaded then some k2 else none
                | none => none) q := by
            intro q hq
            dsimp only
            rw [U.2.2 q (hqk q hq)]
          rw [filterMap_congr_mem ks _ _ hcg]
          simp only [List.filterMap_cons, hlk, hup, Bool.not_false, if_true]
          simp [List.append_assoc]
        · rw [IH.2, U.2.1]
          have hcg : ∀ q ∈ ks,
              (fun k2 => match s1.images.lookup k2 with
                | some info => if !info.isUploaded then (env.uploadResult k2).isSome
                  else true
                | none => true) q =
              (fun k2 => match s.images.lookup k2 with
                | some info => if !info.isUploaded then (env.uploadResult k2).isSome
                  else true
                | none => true) q := by
            intro q hq
            dsimp only
            rw [U.2.2 q (hqk q hq)]
          rw [all_congr_mem ks _ _ hcg]
          simp only [List.all_cons, hlk, hup, Bool.not_false, if_true]
          rw [Bool.and_assoc]
theorem keys_filterMap_pending (m : List (String × ImageInfo))
    (h : (Assoc.keys m).Nodup) :
    (Assoc.keys m).filterMap (fun k => match m.lookup k with
      | some info => if !info.isUploaded then some k else none
      | none => none) =
    (m.filter (fun kv => !kv.2.isUploaded)).map (fun kv => kv.1) := by
  induction m with
  | nil => rfl
  | cons kv rest ih =>
    have hk : Assoc.keys (kv :: rest) = kv.1 :: Assoc.keys rest := rfl
    rw [hk] at h ⊢
    rw [List.filterMap_cons]
    have hhead : List.lookup kv.1 (kv :: rest) = some kv.2 := by
      rw [lookup_cons, if_pos rfl]
    have hcg : ∀ q ∈ Assoc.keys rest,
        (fun k => match List.lookup k (kv :: rest) with
          | some info => if !info.isUploaded then some k else none
          | none => none) q =
        (fun k => match List.lookup k rest with
          | some info => if !info.isUploaded then some k else none
          | none => none) q := by
      intro q hq
      dsimp only
      have hne : q ≠ kv.1 := fun he => (List.nodup_cons.mp h).1 (he ▸ hq)
      rw [lookup_cons, if_neg hne]
    rw [filterMap_congr_mem _ _ _ hcg, ih (List.Nodup.of_cons h)]
    rw [List.filter_cons]
    cases hup : kv.2.isUploaded with
    | true =>
      simp only [hhead, hup, Bool.not_true, Bool.false_eq_true, if_false]
    | false =>
      simp only [hhead, hup, Bool.not_false, if_true, List.map_cons]

theorem keys_all_pending (env : Env) (m : List (String × ImageInfo))
    (h : (Assoc.keys m).Nodup) :
    (Assoc.keys m).all (fun k => match m.lookup k with
      | some info => if !info.isUploaded then (env.uploadResult k).isSome else true
      | none => true) =
    (m.filter (fun kv => !kv.2.isUploaded)).all (fun kv => (env.uploadResult kv.1).isSome) := by
  induction m with
  | nil => rfl
  | cons kv rest ih =>
    have hk : Assoc.keys (kv :: rest) = kv.1 :: Assoc.keys rest := rfl
    rw [hk] at h ⊢
    rw [List.all_cons]
    have hhead : List.lookup kv.1 (kv :: rest) = some kv.2 := by
      rw [lookup_cons, if_pos rfl]
    have hcg : ∀ q ∈ Assoc.keys rest,
        (fun k => match List.lookup k (kv :: rest) with
          | some info => if !info.isUploaded then (env.uploadResult k).isSome else true
          | none => true) q =
        (fun k => match List.lookup k rest with
          | some info => if !info.isUploaded then (env.uploadResult k).isSome else true
          | none => true) q := by
      intro q hq
      dsimp only
      have hne : q ≠ kv.1 := fun he => (List.nodup_cons.mp h).1 (he ▸ hq)
      rw [lookup_cons, if_neg hne]
    rw [all_congr_mem _ _ _ hcg, ih (List.Nodup.of_cons h)]
    rw [List.filter_cons]
    cases hup : kv.2.isUploaded with
    | true =>
      simp only [hhead, hup, Bool.not_true, Bool.false_eq_true, if_false, Bool.true_and]
    | false =>
      simp only [hhead, hup, Bool.not_false, if_true, List.all_cons]

/-- C6: `uploadAllImages` hands the uploader exactly the records whose
`isUploaded` is false (the ghost upload log grows by precisely their keys, in
order), keeps going after per-record failures, and returns true iff every
attempted upload succeeded (the collaborator returned a result).  Side
conditions: distinct keys and a non-throwing adapter. -/
theorem C6_uploadAllImages (env : Env) (settings : Settings) (s : ManagerState) (w : World)
    (hkeys : (Assoc.keys s.images).Nodup) (hfail : env.failPaths = []) :
    (DocumentImageManager.uploadAllImages env settings s w).2.2.uploads =
      w.uploads ++ (s.images.filter (fun kv => !kv.2.isUploaded)).map (fun kv => kv.1) ∧
    (DocumentImageManager.uploadAllImages env settings s w).1 =
      (s.images.filter (fun kv => !kv.2.isUploaded)).all
        (fun kv => (env.uploadResult kv.1).isSome) := by
  have H := uploadAllGo_spec env settings hfail (Assoc.keys s.images) true s w hkeys
  simp only [DocumentImageManager.uploadAllImages]
  constructor
  · rw [H.1, keys_filterMap_pending s.images hkeys]
  · rw [H.2, Bool.true_and, keys_all_pending env s.images hkeys]

namespace Fix

def infoU : ImageInfo := { localPath := "x", remotePath := "https://u/x", isUploaded := true }

def infoN : ImageInfo := { localPath := "y", remotePath := "", isUploaded := false }

/-- Five records, three already uploaded; the uploader accepts key `b` only. -/
def s6 : ManagerState :=
  { mdPath := "n/a.md", imageFolderPath := "n",
    images := [("a", infoU), ("b", infoN), ("c", infoU), ("d", infoN), ("e", infoU)] }

def env6 : Env :=
  { contextAt := fun _ _ => [], nowAt := fun n => n,
    uploadResult := fun p => if p = "b" then some "https://u/b.png" else none,
    fetchResult := fun _ => none, failPaths := [] }

def w6 : World := { fs := { files := [], dirs := [] }, clock := 0, uploads := [] }

end Fix

/-- C6 witness: of five records only the two pending ones (`b`, `d`) reach the
uploader; `d`'s upload fails but `b`'s still happened, and the overall result
is the conjunction (false), through the theorem. -/
theorem C6_uploadAllImages_witness :
    (DocumentImageManager.uploadAllImages Fix.env6 Fix.settingsPlain Fix.s6
      Fix.w6).2.2.uploads =
      Fix.w6.uploads ++ (Fix.s6.images.filter (fun kv => !kv.2.isUploaded)).map
        (fun kv => kv.1) ∧
    (DocumentImageManager.uploadAllImages Fix.env6 Fix.settingsPlain Fix.s6 Fix.w6).1 =
      (Fix.s6.images.filter (fun kv => !kv.2.isUploaded)).all
        (fun kv => (Fix.env6.uploadResult kv.1).isSome) :=
  C6_uploadAllImages Fix.env6 Fix.settingsPlain Fix.s6 Fix.w6 (by decide) rfl
/-! ### The uploaded-implies-remote invariant (C1) -/

/-- Every record of the map satisfies `isUploaded → remotePath` nonempty. -/
def GoodImages (m : List (String × ImageInfo)) : Prop :=
  ∀ kv ∈ m, kv.2.isUploaded = true → kv.2.remotePath ≠ ""

/-- The uploader collaborator returns results whose first comma-separated URL
is nonempty (`urls[0]` is what `uploadImage` records). -/
def UploaderOk (env : Env) : Prop :=
  ∀ p r, env.uploadResult p = some r →
    String.mk ((Path.splitOnChar ',' r.data).headD []) ≠ ""

/-- One public manager operation, as a relation on (manager, world). -/
inductive Step (env : Env) (settings : Settings) :
    ManagerState → World → ManagerState → World → Prop
  | add (s : ManagerState) (w : World) (src : String) : Step env settings s w
      (DocumentImageManager.addImage env settings s src w).2.1
      (DocumentImageManager.addImage env settings s src w).2.2
  | uploadAll (s : ManagerState) (w : World) : Step env settings s w
      (DocumentImageManager.uploadAllImages env settings s w).2.1
      (DocumentImageManager.uploadAllImages env settings s w).2.2
  | downloadAll (s : ManagerState) (w : World) : Step env settings s w
      (DocumentImageManager.downloadAllImages env settings s w).2.1
      (DocumentImageManager.downloadAllImages env settings s w).2.2
  | removeOne (s : ManagerState) (w : World) (lp : String) : Step env settings s w
      (DocumentImageManager.removeImage env s lp w).2.1
      (DocumentImageManager.removeImage env s lp w).2.2
  | rename (s : ManagerState) (w : World) (p : String) : Step env settings s w
      (DocumentImageManager.renameImageFolder env settings s p w).2.1
      (DocumentImageManager.renameImageFolder env settings s p w).2.2

/-- Manager states reachable from a freshly constructed (empty) manager by
the public operations. -/
inductive Reachable (env : Env) (settings : Settings) : ManagerState → World → Prop
  | start (mdPath : String) (w : World) : Reachable env settings
      (DocumentImageManager.mkManager env settings mdPath w).1
      (DocumentImageManager.mkManager env settings mdPath w).2
  | step (s : ManagerState) (w : World) (s1 : ManagerState) (w1 : World) :
      Reachable env settings s w → Step env settings s w s1 w1 →
      Reachable env settings s1 w1

theorem goodImages_set {m : List (String × ImageInfo)} {k : String} {v : ImageInfo}
    (hg : GoodImages m) (hv : v.isUploaded = true → v.remotePath ≠ "") :
    GoodImages (Assoc.set m k v) := by
  intro kv hkv
  rcases Assoc.mem_set hkv with h | h
  · exact hg kv h
  · rw [h]
    exact hv

theorem goodImages_erase {m : List (String × ImageInfo)} {k : String}
    (hg : GoodImages m) : GoodImages (Assoc.erase m k) :=
  fun kv hkv => hg kv (Assoc.mem_erase hkv)

theorem uploadImage_good (env : Env) (settings : Settings) (s : ManagerState) (lp : String)
    (w : World) (hok : UploaderOk env) (hg : GoodImages s.images) :
    GoodImages (DocumentImageManager.uploadImage env settings s lp w).2.1.images := by
  simp only [DocumentImageManager.uploadImage]
  split
  · exact hg
  · rename_i info heq
    split
    · exact hg
    · split
      · exact hg
      · rename_i result heq2
        split
        · simp only [drawNow]
          split
          · split
            · exact goodImages_set hg (fun _ => hok lp result heq2)
            · exact goodImages_set hg (fun _ => hok lp result heq2)
          · exact goodImages_set hg (fun _ => hok lp result heq2)
        · exact hg
theorem addImage_good (env : Env) (settings : Settings) (s : ManagerState) (src : String)
    (w : World) (hok : UploaderOk env) (hg : GoodImages s.images) :
    GoodImages (DocumentImageManager.addImage env settings s src w).2.1.images := by
  simp only [DocumentImageManager.addImage]
  split
  · exact hg
  · rename_i targetPath w1 heq
    simp only [drawNow]
    split
    · split
      · rename_i s2 w5 heqU
        have h2 := congrArg (fun t => t.2.1) heqU
        dsimp only at h2
        rw [← h2]
        apply uploadImage_good env settings _ targetPath _ hok
        apply goodImages_set hg
        split
        · intro hup
          exact Bool.noConfusion hup
        · intro hup
          exact Bool.noConfusion hup
      · rename_i s2 w5 heqU
        have h2 := congrArg (fun t => t.2.1) heqU
        dsimp only at h2
        rw [← h2]
        apply uploadImage_good env settings _ targetPath _ hok
        apply goodImages_set hg
        split
        · intro hup
          exact Bool.noConfusion hup
        · intro hup
          exact Bool.noConfusion hup
    · apply goodImages_set hg
      split
      · intro hup
        exact Bool.noConfusion hup
      · intro hup
        exact Bool.noConfusion hup

theorem uploadAllGo_good (env : Env) (settings : Settings) (hok : UploaderOk env) :
    ∀ (ks : List String) (acc : Bool) (s : ManagerState) (w : World), GoodImages s.images →
    GoodImages (DocumentImageManager.uploadAllGo env settings ks acc s w).2.1.images := by
  intro ks
  induction ks with
  | nil =>
    intro acc s w hg
    exact hg
  | cons k ks ih =>
    intro acc s w hg
    rw [DocumentImageManager.uploadAllGo]
    split
    · rename_i info heq
      split
      · split
        · rename_i succ s1 w1 heqU
          have h2 := congrArg (fun t => t.2.1) heqU
          dsimp only at h2
          apply ih
          rw [← h2]
          exact uploadImage_good env settings s k w hok hg
      · exact ih acc s w hg
    · exact ih acc s w hg

theorem downloadAllGo_good (env : Env) (settings : Settings) :
    ∀ (ks : List String) (acc : Bool) (s : ManagerState) (w : World), GoodImages s.images →
    GoodImages (DocumentImageManager.downloadAllGo env settings ks acc s w).2.1.images := by
  intro ks
  induction ks with
  | nil =>
    intro acc s w hg
    exact hg
  | cons k ks ih =>
    intro acc s w hg
    rw [DocumentImageManager.downloadAllGo]
    split
    · rename_i info heq
      split
      · split
        · rename_i lp1 w1 heqD
          simp only [drawNow]
          apply ih
          exact goodImages_set hg
            (fun hup => hg (k, info) (Assoc.lookup_eq_some_mem heq) hup)
        · exact ih false s _ hg
      · exact ih acc s w hg
    · exact ih acc s w hg
theorem downloadAllImages_good (env : Env) (settings : Settings) (s : ManagerState)
    (w : World) (hg : GoodImages s.images) :
    GoodImages (DocumentImageManager.downloadAllImages env settings s w).2.1.images := by
  simp only [DocumentImageManager.downloadAllImages]
  exact downloadAllGo_good env settings _ true s w hg

theorem removeImage_good (env : Env) (s : ManagerState) (lp : String) (w : World)
    (hg : GoodImages s.images) :
    GoodImages (DocumentImageManager.removeImage env s lp w).2.1.images := by
  simp only [DocumentImageManager.removeImage]
  split
  · exact hg
  · split
    · exact hg
    · exact goodImages_erase hg

theorem moveFilesGo_good (env : Env) (oldF newF : String) :
    ∀ (files : List String) (s : ManagerState) (fs : Fs), GoodImages s.images →
    GoodImages (DocumentImageManager.moveFilesGo env oldF newF files s fs).2.1.images := by
  intro files
  induction files with
  | nil =>
    intro s fs hg
    exact hg
  | cons file rest ih =>
    intro s fs hg
    simp only [DocumentImageManager.moveFilesGo]
    split
    · exact hg
    · rename_i content heqR
      split
      · exact hg
      · rename_i fs1 heqW
        split
        · exact hg
        · rename_i fs2 heqD
          apply ih
          split
          · rename_i info heqL
            exact goodImages_set (goodImages_erase hg)
              (fun hup => hg (file, info) (Assoc.lookup_eq_some_mem heqL) hup)
          · exact hg

theorem renameImageFolder_good (env : Env) (settings : Settings) (s : ManagerState)
    (p : String) (w : World) (hg : GoodImages s.images) :
    GoodImages (DocumentImageManager.renameImageFolder env settings s p w).2.1.images := by
  simp only [DocumentImageManager.renameImageFolder]
  split
  · exact hg
  · simp only [DocumentImageManager.getImageFolderPath, getContext]
    split
    · exact hg
    · split
      · exact hg
      · rename_i fs1 heq1
        split
        · split
          · split
            · exact hg
            · split
              · exact hg
              · split
                · exact hg
                · exact hg
          · exact hg
        · split
          · exact hg
          · rename_i files heqL
            split
            · rename_i s2 fsE heqM
              have h2 := congrArg (fun t => t.2.1) heqM
              dsimp only at h2
              show GoodImages s2.images
              rw [← h2]
              exact moveFilesGo_good env _ _ files _ fs1 hg
            · rename_i s2 fs2 heqM
              have h2 := congrArg (fun t => t.2.1) heqM
              dsimp only at h2
              split
              · show GoodImages s2.images
                rw [← h2]
                exact moveFilesGo_good env _ _ files _ fs1 hg
              · show GoodImages s2.images
                rw [← h2]
                exact moveFilesGo_good env _ _ files _ fs1 hg
theorem uploadAllImages_good (env : Env) (settings : Settings) (s : ManagerState)
    (w : World) (hok : UploaderOk env) (hg : GoodImages s.images) :
    GoodImages (DocumentImageManager.uploadAllImages env settings s w).2.1.images := by
  simp only [DocumentImageManager.uploadAllImages]
  exact uploadAllGo_good env settings hok _ true s w hg

/-- C1: provided the uploader's results have a nonempty first comma-separated
URL (`UploaderOk`), every manager state reachable from a fresh manager by the
public operations keeps the invariant: a record with `isUploaded` true has a
nonempty `remotePath`. -/
theorem C1_uploaded_nonempty_remote (env : Env) (settings : Settings)
    (hok : UploaderOk env) (s : ManagerState) (w : World)
    (hr : Reachable env settings s w) : GoodImages s.images := by
  induction hr with
  | start mdPath w0 =>
    intro kv hkv
    exact absurd hkv (List.not_mem_nil kv)
  | step s w s1 w1 hr hstep ih =>
    cases hstep with
    | add src => exact addImage_good env settings s src w hok ih
    | uploadAll => exact uploadAllImages_good env settings s w hok ih
    | downloadAll => exact downloadAllImages_good env settings s w ih
    | removeOne lp => exact removeImage_good env s lp w ih
    | rename p => exact renameImageFolder_good env settings s p w ih

namespace Fix

/-- An uploader that "succeeds" with an empty output string. -/
def envE : Env :=
  { contextAt := fun _ _ => [], nowAt := fun n => 100 + n,
    uploadResult := fun p => if p = "n/a.png" then some "" else none,
    fetchResult := fun _ => none, failPaths := [] }

def settingsAutoKeep : Settings :=
  { isAutoUpload := true, isDeleteTemp := false, tempFolderPath := "", tempFileFormat := "f" }

def c1w0 : World :=
  { fs := { files := [("pics/a.png", .binary [1])], dirs := ["n", "pics"] }, clock := 0,
    uploads := [] }

def c1M := DocumentImageManager.mkManager envE settingsAutoKeep "n/a.md" c1w0

def c1A := DocumentImageManager.addImage envE settingsAutoKeep c1M.1 "pics/a.png" c1M.2

end Fix

/-- C1 counterexample: when the upload collaborator returns an empty string,
`uploadImage`'s guard still passes (JavaScript `"".split(",")` is `[""]`,
so `urls.length > 0`), and the reachable state after one auto-uploading
`addImage` holds a record with `isUploaded = true` and `remotePath = ""` —
the invariant does not hold without an assumption on the uploader's output. -/
theorem C1_uploaded_empty_remote_counterexample :
    Reachable Fix.envE Fix.settingsAutoKeep Fix.c1A.2.1 Fix.c1A.2.2 ∧
    (Fix.c1A.2.1.images.lookup "n/a.png").map (fun i => (i.isUploaded, i.remotePath)) =
      some (true, "") := by
  constructor
  · exact Reachable.step _ _ _ _ (Reachable.start "n/a.md" Fix.c1w0)
      (Step.add Fix.c1M.1 Fix.c1M.2 "pics/a.png")
  · decide

/-- C1 witness: the state reached by one `addImage` under a never-succeeding
uploader (`UploaderOk` holds vacuously) satisfies the invariant, through the
theorem. -/
theorem C1_uploaded_nonempty_remote_witness :
    GoodImages (DocumentImageManager.addImage Fix.envPlain Fix.settingsPlain
      (DocumentImageManager.mkManager Fix.envPlain Fix.settingsPlain "n/a.md" Fix.wA).1
      "n/a.png"
      (DocumentImageManager.mkManager Fix.envPlain Fix.settingsPlain "n/a.md"
        Fix.wA).2).2.1.images :=
  C1_uploaded_nonempty_remote Fix.envPlain Fix.settingsPlain
    (fun _ _ h => Option.noConfusion h) _ _
    (Reachable.step _ _ _ _ (Reachable.start "n/a.md" Fix.wA)
      (Step.add _ _ "n/a.png"))
